import Mathlib

/-!
Verification of the work-item lifecycle engine of the `brain` repository
(work queue, processing ledger, pipeline executor, recovery subsystem).

The definitions below are a shallow embedding of the JavaScript sources:

* `.obsidian/scripts/queue-manager.js`        — `WorkQueueManager`
* `.obsidian/scripts/main-processor.js`       — `MainProcessor`
* `.obsidian/scripts/completion-log.js`       — `CompletionLog`
* `processing-manifest.js`                    — `ProcessingManifest`
* `recovery-processor.js`                     — `RecoveryProcessor`

Timestamps (`Date.now()`, ISO strings) are modelled as natural numbers
supplied by explicit `now` parameters; the file system is an explicit
environment.  JavaScript objects are structures; maps keyed by strings are
association lists with first-match lookup; `Array.prototype.sort` (which is
stable) is an insertion sort that is stable by construction.
-/

namespace Brain

/-! ## Work queue (`queue-manager.js`) -/

/-- The `metadata` argument of `addToQueue`; only `source` is consulted. -/
structure Metadata where
  source : Option String
  deriving DecidableEq, Repr

/-- The `file` sub-object of a queued work item (a `FileRef`). -/
structure FileRef where
  path : String
  size_bytes : Nat
  hash : Option String
  source : String
  deriving DecidableEq, Repr

/-- A queued work item, as built by `WorkQueueManager.addToQueue`. -/
structure WorkItem where
  id : String
  type : String
  priority : Nat
  created_at : Nat
  file : FileRef
  required_agents : List String
  deriving DecidableEq, Repr

/-- The persisted queue document `{version, last_updated, queue}`. -/
structure QueueDoc where
  last_updated : Option Nat
  queue : List WorkItem
  deriving DecidableEq, Repr

/-- Environment for enqueue: which paths exist on disk, their size and
content hash (`calculateHash` returns `null` on read failure, hence
`Option`). -/
structure FsEnv where
  fsExists : String → Bool
  sizeOf : String → Nat
  hashOf : String → Option String

/-- Whether `sub` occurs as a contiguous sublist of `l`. -/
def listHasInfix (sub : List Char) : List Char → Bool
  | [] => sub.isEmpty
  | x :: xs => sub.isPrefixOf (x :: xs) || listHasInfix sub xs

/-- JavaScript `String.prototype.includes`. -/
def jsIncludes (s sub : String) : Bool :=
  listHasInfix sub.toList s.toList

/-- `WorkQueueManager.detectType`. -/
def detectType (filePath : String) (meta : Metadata) : String :=
  if meta.source = some "git-commit" then "git-commit"
  else if meta.source = some "web-clipper" then "web-clip"
  else if jsIncludes filePath "00_Inbox" then "inbox-file"
  else "unknown"

/-- `WorkQueueManager.calculatePriority` (lower number = higher priority). -/
def calculatePriority (filePath : String) (meta : Metadata) : Nat :=
  if meta.source = some "git-commit" then 1
  else if meta.source = some "web-clipper" then 2
  else if jsIncludes filePath "00_Inbox" then 3
  else 4

/-- `WorkQueueManager.determineAgents`. -/
def determineAgents (filePath : String) (meta : Metadata) : List String :=
  match detectType filePath meta with
  | "git-commit" => ["normalization", "keyword-extraction", "linking", "tagging", "filing"]
  | "web-clip" => ["normalization", "keyword-extraction", "linking", "filing"]
  | "inbox-file" => ["normalization", "keyword-extraction", "linking", "filing"]
  | _ => ["normalization", "filing"]

/-- `WorkQueueManager.addToQueue`.  Returns the new item's id, or `none`
both when the path is already queued (the "already queued" sentinel) and
when the source file does not exist — exactly the two `return null`
branches of the source.  `newId` stands for `` `wq-${Date.now()}` ``. -/
def addToQueue (env : FsEnv) (st : QueueDoc) (filePath : String) (meta : Metadata)
    (now : Nat) (newId : String) : Option String × QueueDoc :=
  if st.queue.any (fun item => item.file.path == filePath) then
    (none, st)
  else if !env.fsExists filePath then
    (none, st)
  else
    let item : WorkItem :=
      { id := newId
        type := detectType filePath meta
        priority := calculatePriority filePath meta
        created_at := now
        file :=
          { path := filePath
            size_bytes := env.sizeOf filePath
            hash := (env.hashOf filePath).map (fun h => "sha256:" ++ h)
            source := meta.source.getD "unknown" }
        required_agents := determineAgents filePath meta }
    (some newId, { last_updated := some now, queue := st.queue ++ [item] })

/-- One step of a stable ascending insertion sort on `priority`: the new
element goes after every already-placed element whose priority is `≤` its
own, so relative order of equal priorities is preserved. -/
def insertByPriority (x : WorkItem) : List WorkItem → List WorkItem
  | [] => [x]
  | y :: ys => if y.priority ≤ x.priority then y :: insertByPriority x ys else x :: y :: ys

/-- The stable ascending sort performed by
`queue.queue.sort((a, b) => a.priority - b.priority)` (ECMAScript sort is
stable). -/
def sortByPriority (l : List WorkItem) : List WorkItem :=
  l.foldl (fun acc x => insertByPriority x acc) []

/-- `WorkQueueManager.getNext`: re-reads the queue, sorts the in-memory
copy by priority and returns element `[0]`.  No `save` call occurs, so the
persisted queue document is unchanged by this operation. -/
def getNext (st : QueueDoc) : Option WorkItem :=
  (sortByPriority st.queue).head?

/-- `getNext` together with its (absent) effect on the persisted queue
document: the source never saves, so the returned document is the input. -/
def getNextRun (st : QueueDoc) : Option WorkItem × QueueDoc :=
  (getNext st, st)

/-- `WorkQueueManager.startProcessing`: splice the item with the given id
out of the queue; throws when the id is not present. -/
def startProcessing (st : QueueDoc) (workItemId : String) (now : Nat) :
    Except String (WorkItem × QueueDoc) :=
  match st.queue.find? (fun item => item.id == workItemId) with
  | none => .error ("Work item " ++ workItemId ++ " not found in queue")
  | some item =>
      .ok (item,
        { last_updated := some now
          queue := st.queue.eraseP (fun it => it.id == workItemId) })

/-! ## Processing ledger (`processing-manifest.js`, class `ProcessingManifest`) -/

/-- Stage status values (`'pending' | 'in-progress' | 'completed' | 'failed'
| 'skipped'`). -/
inductive AgentState where
  | pending
  | inProgress
  | completed
  | failed
  | skipped
  deriving DecidableEq, Repr

/-- One entry of a record's `agent_pipeline`.  The timestamp / payload
fields that `updateAgent` writes are kept so the update is faithful;
payloads are opaque strings. -/
structure AgentStatus where
  name : String
  status : AgentState
  started_at : Option Nat := none
  completed_at : Option Nat := none
  failed_at : Option Nat := none
  skipped_at : Option Nat := none
  duration_ms : Option Nat := none
  output : Option String := none
  error : Option String := none
  reason : Option String := none
  deriving DecidableEq, Repr

/-- One entry of a record's `errors` list. -/
structure PipelineError where
  agent : String
  error : String
  timestamp : Nat
  deriving DecidableEq, Repr

/-- A ledger entry (`current_processing[i]`).  `ProcessingManifest.add`
creates the counter field named `retries`; no production code path ever
creates a field named `retry_count`, so that JavaScript property is
modelled as an `Option` that is `none` on every record the ledger itself
creates (reading it in JS yields `undefined`). -/
structure ProcessingRecord where
  work_id : String
  file_path : String
  started_at : Nat
  agent_pipeline : List AgentStatus
  errors : List PipelineError
  retries : Nat
  retry_count : Option Nat := none
  deriving DecidableEq, Repr

/-- Replace the first element satisfying `p` by `f` of it (JavaScript
`find` + in-place mutation of the found object). -/
def updateFirst (p : α → Bool) (f : α → α) : List α → List α
  | [] => []
  | x :: xs => if p x then f x :: xs else x :: updateFirst p f xs

/-- `ProcessingManifest.add`: append a fresh record, all stages pending. -/
def manifestAdd (m : List ProcessingRecord) (workItem : WorkItem) (now : Nat) :
    List ProcessingRecord :=
  m ++ [{ work_id := workItem.id
          file_path := workItem.file.path
          started_at := now
          agent_pipeline := workItem.required_agents.map (fun n => { name := n, status := .pending })
          errors := []
          retries := 0 }]

/-- The field writes `updateAgent` performs on the found agent entry for a
given new status (the `if/else if` chain of the source). -/
def applyAgentUpdate (st : AgentState) (output : Option String) (now : Nat)
    (a : AgentStatus) : AgentStatus :=
  match st with
  | .inProgress => { a with status := st, started_at := some now }
  | .completed =>
      { a with status := st, completed_at := some now,
               duration_ms := a.started_at.map (fun s => now - s),
               output := output }
  | .failed => { a with status := st, failed_at := some now, error := output }
  | .skipped => { a with status := st, skipped_at := some now, reason := output }
  | .pending => { a with status := st }

/-- The record-level mutation of `updateAgent`: rewrite the named agent
entry, and for `'failed'` also push onto the record's `errors` list. -/
def applyRecordUpdate (agentName : String) (st : AgentState) (output : Option String)
    (now : Nat) (p : ProcessingRecord) : ProcessingRecord :=
  let p' := { p with
    agent_pipeline :=
      updateFirst (fun a => a.name == agentName) (applyAgentUpdate st output now)
        p.agent_pipeline }
  if st = .failed then
    { p' with errors := p'.errors ++ [{ agent := agentName,
                                        error := output.getD "", timestamp := now }] }
  else p'

/-- `ProcessingManifest.updateAgent`: find the record, find the agent,
set its status (no transition validation of any kind), and for `'failed'`
also push onto the record's `errors` list.  Throws only for an unknown
`workId` or an unknown `agentName`; a thrown call performs no save, so the
persisted ledger is unchanged in the error case. -/
def updateAgent (m : List ProcessingRecord) (workId agentName : String)
    (st : AgentState) (output : Option String) (now : Nat) :
    Except String (List ProcessingRecord) :=
  match m.find? (fun p => p.work_id == workId) with
  | none => .error ("Processing item " ++ workId ++ " not found")
  | some processing =>
    match processing.agent_pipeline.find? (fun a => a.name == agentName) with
    | none => .error ("Agent " ++ agentName ++ " not found in pipeline for " ++ workId)
    | some _ =>
      .ok (updateFirst (fun p => p.work_id == workId)
        (applyRecordUpdate agentName st output now) m)

/-- `ProcessingManifest.incrementRetry`: bump the record's `retries`
counter; throws for an unknown `workId`. -/
def incrementRetry (m : List ProcessingRecord) (workId : String) :
    Except String (List ProcessingRecord) :=
  match m.find? (fun p => p.work_id == workId) with
  | none => .error ("Processing item " ++ workId ++ " not found")
  | some _ =>
      .ok (updateFirst (fun p => p.work_id == workId)
        (fun p => { p with retries := p.retries + 1 }) m)

/-- `incrementRetry` applied `n` times (one call per local retry). -/
def incrementRetryN (m : List ProcessingRecord) (workId : String) :
    Nat → Except String (List ProcessingRecord)
  | 0 => .ok m
  | n + 1 => do incrementRetryN (← incrementRetry m workId) workId n

/-- `ProcessingManifest.remove`: splice the record out (returns `false`
when absent; the removal itself is what matters here). -/
def manifestRemove (m : List ProcessingRecord) (workId : String) :
    List ProcessingRecord :=
  m.eraseP (fun p => p.work_id == workId)

/-- `ProcessingManifest.complete`: splice the record out and return the
(annotated) snapshot; throws when absent. -/
def manifestComplete (m : List ProcessingRecord) (workId : String) :
    Except String (ProcessingRecord × List ProcessingRecord) :=
  match m.find? (fun p => p.work_id == workId) with
  | none => .error ("Processing item " ++ workId ++ " not found")
  | some processing =>
      .ok (processing, m.eraseP (fun p => p.work_id == workId))

/-- The status the ledger currently shows for stage `agentName` of record
`workId` (first matches, as in the source's `find`). -/
def statusOf (m : List ProcessingRecord) (workId agentName : String) :
    Option AgentState :=
  ((m.find? (fun p => p.work_id == workId)).bind
    (fun p => p.agent_pipeline.find? (fun a => a.name == agentName))).map (·.status)

/-! ## Completion ledger (`completion-log.js`, class `CompletionLog`) -/

/-- A completion record as built by `CompletionLog.add` (wall-clock
metadata abstracted to the `now` parameter, stage payload metadata kept
opaque). -/
structure CompletionRecord where
  work_id : String
  file_path : String
  completed_at : Nat
  agents_executed : List (String × AgentState)
  errors : List PipelineError
  retries : Nat
  deriving DecidableEq, Repr

/-- `CompletionLog.add`: append-only push of a completion snapshot. -/
def completionAdd (log : List CompletionRecord) (pr : ProcessingRecord) (now : Nat) :
    List CompletionRecord :=
  log ++ [{ work_id := pr.work_id
            file_path := pr.file_path
            completed_at := now
            agents_executed := pr.agent_pipeline.map (fun a => (a.name, a.status))
            errors := pr.errors
            retries := pr.retries }]

/-! ## Pipeline executor (`main-processor.js`, `MainProcessor.executeAgentPipeline`)

`MainProcessor` fixes `this.maxRetries = 3` and the retry delay
`1000 * retries` (the constant `1000` is the base delay); both are kept as
parameters so the arithmetic shape is visible in the theorems.  A stage
collaborator is a function `behavior : Nat → Bool` giving the outcome of
the attempt with the given zero-based index (`true` = the agent returned
`{status: 'completed'}`). -/

/-- Observable outcome of the `while (retries <= this.maxRetries &&
!success)` loop for one stage: how many times the agent was invoked, how
many `incrementRetry` calls happened, the list of back-off waits (in ms,
in order), and whether the stage ended in success. -/
structure StageOutcome where
  invocations : Nat
  retriesAdded : Nat
  delays : List Nat
  success : Bool
  deriving DecidableEq, Repr

/-- The retry loop, fuel-indexed so it computes by `rfl`; `retries` is the
loop variable of the source.  A failing attempt increments `retries` and,
while `retries ≤ maxRetries`, waits `baseDelay * retries` and tries again;
once `retries` exceeds `maxRetries` the loop stops with `success = false`
(the source then marks the stage failed and throws). -/
def stageLoopFuel (behavior : Nat → Bool) (maxRetries baseDelay : Nat) :
    Nat → Nat → StageOutcome
  | _, 0 => { invocations := 0, retriesAdded := 0, delays := [], success := false }
  | retries, fuel + 1 =>
    if behavior retries then
      { invocations := 1, retriesAdded := 0, delays := [], success := true }
    else if retries + 1 ≤ maxRetries then
      let rest := stageLoopFuel behavior maxRetries baseDelay (retries + 1) fuel
      { invocations := rest.invocations + 1
        retriesAdded := rest.retriesAdded + 1
        delays := baseDelay * (retries + 1) :: rest.delays
        success := rest.success }
    else
      { invocations := 1, retriesAdded := 0, delays := [], success := false }

/-- The stage retry loop entered with `retries = 0`; `maxRetries + 1` fuel
always suffices because each recursive call increases `retries`. -/
def stageLoop (behavior : Nat → Bool) (maxRetries baseDelay : Nat) : StageOutcome :=
  stageLoopFuel behavior maxRetries baseDelay 0 (maxRetries + 1)

/-- How a pipeline run ended: either an exception propagated out of a
ledger access (`notFound`), or a stage exhausted its local retries and
`throw new Error('Agent ... failed: ...')` aborted the run. -/
inductive PipeError where
  | notFound (msg : String)
  | agentFailed (agent : String)
  deriving DecidableEq, Repr

/-- Result of `executeAgentPipeline`: the ledger as persisted when control
returns (mutations made before a throw are already saved), the error that
propagated (if any), and the per-stage loop outcomes in execution order. -/
structure PipeResult where
  manifest : List ProcessingRecord
  err : Option PipeError
  stageLogs : List (String × StageOutcome)
  deriving Repr

/-- `MainProcessor.executeAgentPipeline`: for each required agent in
order — mark `in-progress`, run the bounded retry loop (each retry also
calls `incrementRetry`), then mark `completed` and continue, or mark
`failed` (which also appends to `errors`) and abort the remaining
stages by throwing. -/
def executeAgentPipeline (beh : String → Nat → Bool) (maxRetries baseDelay : Nat)
    (workId : String) (agents : List String) (m : List ProcessingRecord) (now : Nat) :
    PipeResult :=
  match agents with
  | [] => { manifest := m, err := none, stageLogs := [] }
  | a :: rest =>
    match updateAgent m workId a .inProgress none now with
    | .error e => { manifest := m, err := some (.notFound e), stageLogs := [] }
    | .ok m1 =>
      let out := stageLoop (beh a) maxRetries baseDelay
      match incrementRetryN m1 workId out.retriesAdded with
      | .error e => { manifest := m1, err := some (.notFound e), stageLogs := [(a, out)] }
      | .ok m2 =>
        if out.success then
          match updateAgent m2 workId a .completed (some "output") now with
          | .error e => { manifest := m2, err := some (.notFound e), stageLogs := [(a, out)] }
          | .ok m3 =>
            let restRun := executeAgentPipeline beh maxRetries baseDelay workId rest m3 now
            { restRun with stageLogs := (a, out) :: restRun.stageLogs }
        else
          match updateAgent m2 workId a .failed (some "error") now with
          | .error e => { manifest := m2, err := some (.notFound e), stageLogs := [(a, out)] }
          | .ok m3 => { manifest := m3, err := some (.agentFailed a), stageLogs := [(a, out)] }

/-! ## Dispatch (`main-processor.js`, `MainProcessor.processNext`) -/

/-- The whole persisted state the dispatcher touches: queue document,
processing ledger and completion ledger. -/
structure SysState where
  queue : QueueDoc
  manifest : List ProcessingRecord
  completions : List CompletionRecord
  deriving DecidableEq, Repr

/-- The `status` field of the object `processNext` returns. -/
inductive ProcStatus where
  | idle
  | completedOk
  | failedRun
  deriving DecidableEq, Repr

/-- `MainProcessor.processNext`: pull the highest-priority item
(`getNext` + `startProcessing`), register it in the ledger, run the
pipeline; on success `manifest.complete` removes the record and a
completion record is appended; on pipeline failure the `catch` block calls
`manifest.remove(workItem.id)` — the record is deleted.  Exceptions from
`startProcessing` / `manifest.complete` propagate (`Except.error`). -/
def processNext (beh : String → Nat → Bool) (maxRetries baseDelay : Nat)
    (st : SysState) (now : Nat) : Except String (ProcStatus × SysState) :=
  match getNext st.queue with
  | none => .ok (.idle, st)
  | some nextWork => do
    let (workItem, q2) ← startProcessing st.queue nextWork.id now
    let m1 := manifestAdd st.manifest workItem now
    let run := executeAgentPipeline beh maxRetries baseDelay workItem.id
                 workItem.required_agents m1 now
    match run.err with
    | none => do
      let (snapshot, m2) ← manifestComplete run.manifest workItem.id
      let comps := completionAdd st.completions snapshot now
      .ok (.completedOk, { queue := q2, manifest := m2, completions := comps })
    | some _ =>
      .ok (.failedRun,
        { queue := q2
          manifest := manifestRemove run.manifest workItem.id
          completions := st.completions })

/-! ## Recovery engine (`recovery-processor.js`, class `RecoveryProcessor`) -/

/-- The persisted recovery-state document
`{retries, lastRetry, permanentFailures}`.  The two JavaScript objects are
association lists with unique keys and first-match lookup. -/
structure RecoveryState where
  retries : List (String × Nat)
  lastRetry : List (String × Nat)
  permanentFailures : List String
  deriving DecidableEq, Repr

/-- JavaScript `state.retries[workId]` (`undefined` = `none`). -/
def lookupNat (l : List (String × Nat)) (k : String) : Option Nat :=
  (l.find? (fun kv => kv.1 == k)).map (·.2)

/-- JavaScript `state.retries[workId] = v`: replace an existing binding,
else add one. -/
def setKey (l : List (String × Nat)) (k : String) (v : Nat) : List (String × Nat) :=
  if l.any (fun kv => kv.1 == k) then
    updateFirst (fun kv => kv.1 == k) (fun kv => (kv.1, v)) l
  else l ++ [(k, v)]

/-- Result object of `RecoveryProcessor.findLastCheckpoint`.  When no
stage is completed the source returns an object without a
`resumeFromIndex` property (JavaScript `undefined`), modelled as `none`;
`slice(undefined)` later behaves as `slice(0)`. -/
structure Checkpoint where
  checkpoint : String
  lastCompletedAgent : Option AgentStatus
  resumeFromAgent : Option String
  resumeFromIndex : Option Nat
  deriving DecidableEq, Repr

/-- `RecoveryProcessor.findLastCheckpoint`. -/
def findLastCheckpoint (task : ProcessingRecord) : Checkpoint :=
  let completedAgents := task.agent_pipeline.filter (fun a => a.status == .completed)
  match completedAgents.getLast? with
  | none =>
      { checkpoint := "start"
        lastCompletedAgent := none
        resumeFromAgent := task.agent_pipeline.head?.map (·.name)
        resumeFromIndex := none }
  | some lastCompleted =>
      let lastCompletedIndex :=
        task.agent_pipeline.findIdx (fun a => a.name == lastCompleted.name)
      { checkpoint := lastCompleted.name
        lastCompletedAgent := some lastCompleted
        resumeFromAgent := (task.agent_pipeline.get? (lastCompletedIndex + 1)).map (·.name)
        resumeFromIndex := some (lastCompletedIndex + 1) }

/-- The index `retryTask` actually resumes from:
`agent_pipeline.slice(checkpoint.resumeFromIndex)` with
`slice(undefined) = slice(0)`. -/
def effectiveResumeIndex (c : Checkpoint) : Nat :=
  c.resumeFromIndex.getD 0

/-- The names `retryTask` hands to the pipeline executor:
`task.agent_pipeline.slice(resumeFromIndex).map(a => a.name)`. -/
def remainingAgentNames (task : ProcessingRecord) : List String :=
  (task.agent_pipeline.drop (effectiveResumeIndex (findLastCheckpoint task))).map (·.name)

/-- JavaScript `item.retry_count >= maxRetries` where the property may be
`undefined`: any `>=` comparison against `undefined` is `false`. -/
def optGe : Option Nat → Nat → Bool
  | none, _ => false
  | some v, b => b ≤ v

/-- `RecoveryProcessor.detectFailedTasks`: keep records with a failed
stage or with `retry_count ≥ maxRetries` (note the source reads the
property `retry_count`, which `ProcessingManifest.add` never creates — it
creates `retries`); then, unless disabled, drop (from the returned list
only, never from the ledger) records older than `maxFailureAge`. -/
def detectFailedTasks (maxRetries : Nat) (cleanupOldFailures : Bool) (maxFailureAge : Nat)
    (m : List ProcessingRecord) (now : Nat) : List ProcessingRecord :=
  let failedTasks := m.filter (fun item =>
    item.agent_pipeline.any (fun a => a.status == .failed) || optGe item.retry_count maxRetries)
  if cleanupOldFailures then
    failedTasks.filter (fun task => now - task.started_at ≤ maxFailureAge)
  else failedTasks

/-- The recovery-state half of `markPermanentFailure`: push the id onto
`permanentFailures` unless already present. -/
def addPermanentFailure (rs : RecoveryState) (workId : String) : RecoveryState :=
  if rs.permanentFailures.contains workId then rs
  else { rs with permanentFailures := rs.permanentFailures ++ [workId] }

/-- `RecoveryProcessor.markPermanentFailure`: record the permanent
failure, then remove the record from the processing ledger. -/
def markPermanentFailure (rs : RecoveryState) (m : List ProcessingRecord)
    (workId : String) : RecoveryState × List ProcessingRecord :=
  (addPermanentFailure rs workId, manifestRemove m workId)

/-- The reset loop of `retryTask`: for each remaining agent name, if the
*task snapshot* shows it failed, set it back to `pending` in the ledger
(an exception from `updateAgent` propagates, as in the source where this
loop is outside the `try`). -/
def resetFailedAgents (task : ProcessingRecord) (workId : String) (now : Nat) :
    List ProcessingRecord → List String → Except String (List ProcessingRecord)
  | m, [] => .ok m
  | m, n :: rest =>
    match task.agent_pipeline.find? (fun a => a.name == n) with
    | some a =>
      if a.status = .failed then do
        resetFailedAgents task workId now (← updateAgent m workId n .pending none now) rest
      else resetFailedAgents task workId now m rest
    | none => resetFailedAgents task workId now m rest

/-- The `status` field of the object `retryTask` returns. -/
inductive RetryStatus where
  | permanentFail
  | skippedTask
  | recovered
  | failedRetry
  deriving DecidableEq, Repr

/-- Everything `retryTask` leaves behind: its reported status, the three
persisted documents, and the back-off delay it waited (when it got that
far). -/
structure RetryOutcome where
  status : RetryStatus
  manifest : List ProcessingRecord
  completions : List CompletionRecord
  recovery : RecoveryState
  delayMs : Option Nat
  deriving DecidableEq, Repr

/-- `RecoveryProcessor.retryTask` on the snapshot `task`:
1. if `retries[work_id] ≥ maxRetries` already, quarantine immediately;
2. otherwise compute the checkpoint; skip if nothing remains to run;
3. increment `retries[work_id]` and stamp `lastRetry[work_id]`;
4. wait `retryDelay * 2^(count-1)` (or `retryDelay` without back-off);
5. reset failed remaining stages to pending and run the pipeline executor
   on the remaining stage names;
6. on success just report `recovered` (the ledger record, the completion
   ledger and the recovery entries are all left as they are);
7. on failure quarantine *now* if the incremented count has reached
   `maxRetries`, else leave everything for the next pass. -/
def retryTask (beh : String → Nat → Bool) (maxRetries retryDelay : Nat)
    (expBackoff : Bool) (pipeMaxRetries pipeBaseDelay : Nat)
    (task : ProcessingRecord) (m : List ProcessingRecord)
    (comps : List CompletionRecord) (rs : RecoveryState) (now : Nat) :
    Except String RetryOutcome :=
  let workId := task.work_id
  if maxRetries ≤ (lookupNat rs.retries workId).getD 0 then
    let (rs', m') := markPermanentFailure rs m workId
    .ok { status := .permanentFail, manifest := m', completions := comps,
          recovery := rs', delayMs := none }
  else
    let cp := findLastCheckpoint task
    match cp.resumeFromAgent with
    | none =>
      .ok { status := .skippedTask, manifest := m, completions := comps,
            recovery := rs, delayMs := none }
    | some _ => do
      let retryCount := (lookupNat rs.retries workId).getD 0 + 1
      let rs1 : RecoveryState :=
        { retries := setKey rs.retries workId retryCount
          lastRetry := setKey rs.lastRetry workId now
          permanentFailures := rs.permanentFailures }
      let delay := if expBackoff then retryDelay * 2 ^ (retryCount - 1) else retryDelay
      let remaining := remainingAgentNames task
      let m1 ← resetFailedAgents task workId now m remaining
      let run := executeAgentPipeline beh pipeMaxRetries pipeBaseDelay workId remaining m1 now
      match run.err with
      | none =>
        .ok { status := .recovered, manifest := run.manifest, completions := comps,
              recovery := rs1, delayMs := some delay }
      | some _ =>
        if maxRetries ≤ retryCount then
          let (rs2, m2) := markPermanentFailure rs1 run.manifest workId
          .ok { status := .permanentFail, manifest := m2, completions := comps,
                recovery := rs2, delayMs := some delay }
        else
          .ok { status := .failedRetry, manifest := run.manifest, completions := comps,
                recovery := rs1, delayMs := some delay }

/-- `RecoveryProcessor.cleanup`: delete `retries` / `lastRetry` entries
whose work id is neither in the ledger nor in `permanentFailures`; returns
the updated state and the number of entries cleaned. -/
def recoveryCleanup (m : List ProcessingRecord) (rs : RecoveryState) :
    RecoveryState × Nat :=
  let activeWorkIds := m.map (·.work_id)
  let keep := fun (kv : String × Nat) =>
    activeWorkIds.contains kv.1 || rs.permanentFailures.contains kv.1
  let removedKeys := (rs.retries.filter (fun kv => !keep kv)).map (·.1)
  ({ retries := rs.retries.filter keep
     lastRetry := rs.lastRetry.filter (fun kv => !removedKeys.contains kv.1)
     permanentFailures := rs.permanentFailures },
   removedKeys.length)

/-! ## Specification-side definitions (for refinement comparisons)

`resumeIndexSpec` follows the wording of the specification's checkpoint
law: the resume index is one past the last stage in pipeline order with
status `completed`, or the first stage (index 0) when none is completed. -/

/-- Resume index as worded by the spec, by structural recursion: for
`a :: rest`, if `rest` contains a completed stage its one-past index is
shifted by one; otherwise `a` itself decides. -/
def resumeIndexSpec : List AgentStatus → Nat
  | [] => 0
  | a :: rest =>
    let r := resumeIndexSpec rest
    if 0 < r then r + 1
    else if a.status = .completed then 1 else 0

/-! ## List infrastructure shared by the theorems below -/

theorem updateFirst_map {α β : Type} (p : α → Bool) (f : α → α) (g : α → β)
    (hg : ∀ x, g (f x) = g x) (l : List α) :
    (updateFirst p f l).map g = l.map g := by
  induction l with
  | nil => rfl
  | cons x xs ih => by_cases hx : p x <;> simp [updateFirst, hx, hg, ih]

theorem find?_updateFirst {α : Type} (p : α → Bool) (f : α → α)
    (hf : ∀ x, p x = true → p (f x) = true) (l : List α) :
    (updateFirst p f l).find? p = (l.find? p).map f := by
  induction l with
  | nil => rfl
  | cons x xs ih =>
    by_cases hx : p x
    · simp [updateFirst, hx, List.find?_cons, hf x hx]
    · simp [updateFirst, hx, List.find?_cons, ih]

theorem find?_filter_of_imp {α : Type} (p q : α → Bool) (l : List α)
    (h : ∀ x, p x = true → q x = true) : (l.filter q).find? p = l.find? p := by
  induction l with
  | nil => rfl
  | cons x xs ih =>
    by_cases hq : q x
    · by_cases hp : p x <;> simp [List.filter_cons, hq, List.find?_cons, hp, ih]
    · have hp : ¬ p x = true := fun hp => hq (h x hp)
      simp [List.filter_cons, hq, List.find?_cons, hp, ih]

theorem map_eraseP_not_mem {α β : Type} [DecidableEq β] (f : α → β) (k : β)
    (l : List α) (hnd : (l.map f).Nodup) :
    k ∉ (l.eraseP (fun x => f x == k)).map f := by
  induction l with
  | nil => simp
  | cons x xs ih =>
    rw [List.map_cons, List.nodup_cons] at hnd
    by_cases hx : f x = k
    · have hb : (f x == k) = true := by simp [hx]
      rw [List.eraseP_cons]
      simp only [hb, cond_true]
      simpa [hx] using hnd.1
    · have hb : (f x == k) = false := by simp [hx]
      rw [List.eraseP_cons]
      simp only [hb, cond_false, List.map_cons, List.mem_cons]
      rintro (h | h)
      · exact hx h.symm
      · exact ih hnd.2 h

theorem find?_key_of_nodup {α β : Type} [DecidableEq β] (f : α → β)
    (l : List α) (w : α) (hnd : (l.map f).Nodup) (hw : w ∈ l) :
    l.find? (fun x => f x == f w) = some w := by
  induction l with
  | nil => cases hw
  | cons x xs ih =>
    rw [List.map_cons, List.nodup_cons] at hnd
    rcases List.mem_cons.mp hw with rfl | hw'
    · simp [List.find?_cons]
    · have hx : f x ≠ f w := by
        intro h
        exact hnd.1 (h ▸ List.mem_map_of_mem f hw')
      have hb : (f x == f w) = false := by simp [hx]
      rw [List.find?_cons]
      simp only [hb]
      exact ih hnd.2 hw'

/-! ## Stable-sort head characterisation (for `getNext`) -/

/-- The earliest element of minimal priority among `w :: l` (ties keep the
earlier element). -/
def leader : WorkItem → List WorkItem → WorkItem
  | w, [] => w
  | w, x :: xs => leader (if w.priority ≤ x.priority then w else x) xs

theorem insertByPriority_head (x : WorkItem) (l : List WorkItem) :
    (insertByPriority x l).head? =
      match l with
      | [] => some x
      | y :: _ => some (if y.priority ≤ x.priority then y else x) := by
  cases l with
  | nil => rfl
  | cons y ys => by_cases h : y.priority ≤ x.priority <;> simp [insertByPriority, h]

theorem sortFold_head (l acc : List WorkItem) :
    (l.foldl (fun a x => insertByPriority x a) acc).head? =
      match acc.head? with
      | none => (match l with | [] => none | x :: xs => some (leader x xs))
      | some w => some (leader w l) := by
  induction l generalizing acc with
  | nil => cases acc <;> simp [leader]
  | cons x xs ih =>
    cases acc with
    | nil => simpa [insertByPriority] using ih [x]
    | cons w rest =>
      have hins : insertByPriority x (w :: rest) =
          if w.priority ≤ x.priority then w :: insertByPriority x rest
          else x :: w :: rest := rfl
      by_cases h : w.priority ≤ x.priority
      · rw [List.foldl_cons, hins, if_pos h]
        have hstep := ih (w :: insertByPriority x rest)
        simp only [List.head?_cons] at hstep
        rw [hstep]
        simp [leader, h]
      · rw [List.foldl_cons, hins, if_neg h]
        have hstep := ih (x :: w :: rest)
        simp only [List.head?_cons] at hstep
        rw [hstep]
        simp [leader, h]

theorem getNext_eq (st : QueueDoc) :
    getNext st = match st.queue with | [] => none | x :: xs => some (leader x xs) := by
  have h := sortFold_head st.queue []
  simpa [getNext, sortByPriority] using h

theorem leader_mem (w : WorkItem) (l : List WorkItem) : leader w l ∈ w :: l := by
  induction l generalizing w with
  | nil => simp [leader]
  | cons x xs ih =>
    rw [leader]
    have h := ih (if w.priority ≤ x.priority then w else x)
    rcases List.mem_cons.mp h with h' | h'
    · rw [h']
      by_cases hp : w.priority ≤ x.priority
      · simp [hp]
      · simp [hp]
    · exact List.mem_cons.mpr (Or.inr (List.mem_cons.mpr (Or.inr h')))

theorem leader_min (w : WorkItem) (l : List WorkItem) :
    ∀ v ∈ w :: l, (leader w l).priority ≤ v.priority := by
  induction l generalizing w with
  | nil =>
    intro v hv
    rw [List.mem_singleton] at hv
    subst hv
    exact le_refl _
  | cons x xs ih =>
    intro v hv
    rw [leader]
    have hw' := ih (if w.priority ≤ x.priority then w else x) _ (List.mem_cons_self _ _)
    rcases List.mem_cons.mp hv with rfl | hv'
    · by_cases hp : v.priority ≤ x.priority
      · rw [if_pos hp] at hw' ⊢
        exact hw'
      · rw [if_neg hp] at hw' ⊢
        exact le_trans hw' (le_of_not_le hp)
    · rcases List.mem_cons.mp hv' with rfl | hv''
      · by_cases hp : w.priority ≤ v.priority
        · rw [if_pos hp] at hw' ⊢
          exact le_trans hw' hp
        · rw [if_neg hp] at hw' ⊢
          exact hw'
      · exact ih _ v (List.mem_cons.mpr (Or.inr hv''))

theorem leader_eq_or_lt (w : WorkItem) (l : List WorkItem) :
    leader w l = w ∨ (leader w l).priority < w.priority := by
  induction l generalizing w with
  | nil => exact Or.inl rfl
  | cons x xs ih =>
    rw [leader]
    by_cases hp : w.priority ≤ x.priority
    · rw [if_pos hp]
      exact ih w
    · rw [if_neg hp]
      rcases ih x with h | h
      · right
        rw [h]
        exact lt_of_not_le hp
      · right
        exact lt_trans h (lt_of_not_le hp)

theorem leader_earliest (w : WorkItem) (l : List WorkItem)
    (hp : (w :: l).Pairwise (fun a b => a.created_at ≤ b.created_at)) :
    ∀ v ∈ w :: l, v.priority = (leader w l).priority →
      (leader w l).created_at ≤ v.created_at := by
  induction l generalizing w with
  | nil =>
    intro v hv _
    rw [List.mem_singleton] at hv
    subst hv
    exact le_refl _
  | cons x xs ih =>
    rw [List.pairwise_cons] at hp
    obtain ⟨hp1, hp2⟩ := hp
    have hpx := List.pairwise_cons.mp hp2
    intro v hv hpri
    rw [leader] at hpri ⊢
    by_cases hle : w.priority ≤ x.priority
    · -- `w` survives the comparison with `x`
      rw [if_pos hle] at hpri ⊢
      have hp' : (w :: xs).Pairwise (fun a b => a.created_at ≤ b.created_at) :=
        List.pairwise_cons.mpr
          ⟨fun b hb => hp1 b (List.mem_cons.mpr (Or.inr hb)), hpx.2⟩
      rcases List.mem_cons.mp hv with rfl | hv'
      · exact ih v hp' v (List.mem_cons_self _ _) hpri
      rcases List.mem_cons.mp hv' with rfl | hv''
      · -- `v = x`: the leader must then be `w` itself
        rcases leader_eq_or_lt w xs with heq | hlt
        · rw [heq]
          exact hp1 v (List.mem_cons_self _ _)
        · rw [← hpri] at hlt
          exact absurd (lt_of_lt_of_le hlt hle) (lt_irrefl _)
      · exact ih w hp' v (List.mem_cons.mpr (Or.inr hv'')) hpri
    · -- `x` replaces `w`
      rw [if_neg hle] at hpri ⊢
      rcases List.mem_cons.mp hv with rfl | hv'
      · -- `v = w` cannot share the leader priority
        have h1 : (leader x xs).priority ≤ x.priority :=
          leader_min x xs x (List.mem_cons_self _ _)
        have h2 : x.priority < v.priority := lt_of_not_le hle
        rw [hpri] at h2
        exact absurd (lt_of_le_of_lt h1 h2) (lt_irrefl _)
      · exact ih x hp2 v hv' hpri

/-! ## Checkpoint lemmas (for the checkpoint law) -/

/-- The resume index actually computed by `findLastCheckpoint` /
`retryTask`, written as a function of the pipeline alone. -/
def rawResumeIndex (l : List AgentStatus) : Nat :=
  match (l.filter (fun a => a.status == .completed)).getLast? with
  | none => 0
  | some x => l.findIdx (fun a => a.name == x.name) + 1

theorem effectiveResumeIndex_eq_raw (task : ProcessingRecord) :
    effectiveResumeIndex (findLastCheckpoint task) = rawResumeIndex task.agent_pipeline := by
  unfold effectiveResumeIndex findLastCheckpoint rawResumeIndex
  cases h : (task.agent_pipeline.filter (fun a => a.status == .completed)).getLast? <;>
    simp [h]

theorem resumeIndexSpec_eq_zero (l : List AgentStatus) :
    resumeIndexSpec l = 0 ↔ ∀ a ∈ l, a.status ≠ .completed := by
  induction l with
  | nil => simp [resumeIndexSpec]
  | cons a rest ih =>
    simp only [resumeIndexSpec]
    by_cases hr : 0 < resumeIndexSpec rest
    · have hne : resumeIndexSpec rest ≠ 0 := Nat.pos_iff_ne_zero.mp hr
      have hex : ¬ ∀ b ∈ rest, b.status ≠ .completed := fun hall => hne (ih.mpr hall)
      push_neg at hex
      obtain ⟨b, hb, hbc⟩ := hex
      rw [if_pos hr]
      constructor
      · intro h
        exact absurd h (Nat.succ_ne_zero _)
      · intro h
        exact absurd hbc (h b (List.mem_cons.mpr (Or.inr hb)))
    · have hr0 : resumeIndexSpec rest = 0 := Nat.eq_zero_of_not_pos hr
      rw [if_neg hr]
      by_cases ha : a.status = .completed
      · rw [if_pos ha]
        simp only [List.forall_mem_cons]
        constructor
        · intro h
          exact absurd h (Nat.one_ne_zero)
        · intro h
          exact absurd ha h.1
      · rw [if_neg ha]
        simp only [List.forall_mem_cons]
        constructor
        · intro _
          exact ⟨ha, ih.mp hr0⟩
        · intro _
          trivial

theorem drop_resumeIndexSpec_not_completed (l : List AgentStatus) :
    ∀ a ∈ l.drop (resumeIndexSpec l), a.status ≠ .completed := by
  induction l with
  | nil => simp
  | cons a rest ih =>
    simp only [resumeIndexSpec]
    by_cases hr : 0 < resumeIndexSpec rest
    · rw [if_pos hr]
      simpa [List.drop_succ_cons] using ih
    · have hr0 : resumeIndexSpec rest = 0 := Nat.eq_zero_of_not_pos hr
      rw [if_neg hr]
      by_cases ha : a.status = .completed
      · rw [if_pos ha]
        intro b hb
        exact (resumeIndexSpec_eq_zero rest).mp hr0 b (by simpa using hb)
      · rw [if_neg ha]
        intro b hb
        rcases List.mem_cons.mp (by simpa using hb) with rfl | hb'
        · exact ha
        · exact (resumeIndexSpec_eq_zero rest).mp hr0 b hb'

theorem rawResumeIndex_eq_spec (l : List AgentStatus)
    (hnd : (l.map (·.name)).Nodup) : rawResumeIndex l = resumeIndexSpec l := by
  induction l with
  | nil => rfl
  | cons a rest ih =>
    rw [List.map_cons, List.nodup_cons] at hnd
    cases hfr : rest.filter (fun b => b.status == .completed) with
    | nil =>
      have hspec0 : resumeIndexSpec rest = 0 :=
        (resumeIndexSpec_eq_zero rest).mpr (by
          intro b hb hbc
          have : b ∈ rest.filter (fun b => b.status == .completed) :=
            List.mem_filter.mpr ⟨hb, by simp [hbc]⟩
          rw [hfr] at this
          cases this)
      by_cases ha : a.status = .completed
      · have hba : (a.status == AgentState.completed) = true := by simp [ha]
        unfold rawResumeIndex
        simp only [List.filter_cons, hba, if_true, hfr, List.getLast?_singleton]
        rw [List.findIdx_cons]
        simp only [beq_self_eq_true, cond_true]
        simp [resumeIndexSpec, hspec0, ha]
      · have hba : (a.status == AgentState.completed) = false := by simp [ha]
        unfold rawResumeIndex
        simp only [List.filter_cons, hba, if_false, hfr]
        simp [resumeIndexSpec, hspec0, ha]
    | cons y ys =>
      obtain ⟨x, hgl⟩ : ∃ x, (y :: ys).getLast? = some x := by
        cases hg : (y :: ys).getLast? with
        | none => exact absurd (List.getLast?_eq_none_iff.mp hg) (by simp)
        | some x => exact ⟨x, rfl⟩
      have hxmem : x ∈ rest := by
        have hx1 : x ∈ y :: ys := List.mem_of_mem_getLast? (by simp [hgl])
        rw [← hfr] at hx1
        exact (List.mem_filter.mp hx1).1
      have hname : (a.name == x.name) = false := by
        have : a.name ≠ x.name := by
          intro h
          exact hnd.1 (h ▸ List.mem_map_of_mem (·.name) hxmem)
        simp [this]
      have hrawrest : rawResumeIndex rest =
          rest.findIdx (fun b => b.name == x.name) + 1 := by
        unfold rawResumeIndex
        rw [hfr, hgl]
      have hglcons : ((a :: rest).filter (fun b => b.status == .completed)).getLast? =
          some x := by
        rw [List.filter_cons, hfr]
        split
        · rw [List.getLast?_cons_cons]
          exact hgl
        · exact hgl
      have hrawcons : rawResumeIndex (a :: rest) =
          (a :: rest).findIdx (fun b => b.name == x.name) + 1 := by
        unfold rawResumeIndex
        rw [hglcons]
      rw [List.findIdx_cons] at hrawcons
      simp only [hname, cond_false] at hrawcons
      have hpos : 0 < resumeIndexSpec rest := by
        rw [← ih hnd.2, hrawrest]
        exact Nat.succ_pos _
      rw [hrawcons]
      simp only [resumeIndexSpec]
      rw [if_pos hpos, ← ih hnd.2, hrawrest]

/-! ## Retry-loop lemmas (for the bounded local retry claim) -/

theorem stageLoopFuel_spec (beh : Nat → Bool) (maxRetries baseDelay : Nat) :
    ∀ fuel retries, fuel + retries = maxRetries + 1 → retries ≤ maxRetries →
      1 ≤ (stageLoopFuel beh maxRetries baseDelay retries fuel).invocations ∧
      (stageLoopFuel beh maxRetries baseDelay retries fuel).invocations + retries ≤
        maxRetries + 1 ∧
      (stageLoopFuel beh maxRetries baseDelay retries fuel).delays =
        (List.range ((stageLoopFuel beh maxRetries baseDelay retries fuel).invocations - 1)).map
          (fun i => baseDelay * (retries + i + 1)) ∧
      (stageLoopFuel beh maxRetries baseDelay retries fuel).retriesAdded =
        (stageLoopFuel beh maxRetries baseDelay retries fuel).invocations - 1 := by
  intro fuel
  induction fuel with
  | zero => intro retries hsum hret; omega
  | succ fuel ih =>
    intro retries hsum hret
    by_cases hb : beh retries
    · simp [stageLoopFuel, hb] <;> omega
    · by_cases hnext : retries + 1 ≤ maxRetries
      · have hsum' : fuel + (retries + 1) = maxRetries + 1 := by omega
        obtain ⟨h1, h2, h3, h4⟩ := ih (retries + 1) hsum' hnext
        simp only [stageLoopFuel, hb, if_false, hnext, if_true, Bool.false_eq_true]
        refine ⟨by omega, by omega, ?_, by omega⟩
        have hinv : (stageLoopFuel beh maxRetries baseDelay (retries + 1) fuel).invocations =
            ((stageLoopFuel beh maxRetries baseDelay (retries + 1) fuel).invocations - 1) + 1 := by
          omega
        rw [h3]
        simp only [Nat.add_sub_cancel]
        conv_rhs => rw [hinv]
        rw [List.range_succ_eq_map, List.map_cons, List.map_map]
        congr 1
        · apply List.map_congr_left
          intro i _
          simp only [Function.comp_apply, Nat.succ_eq_add_one]
          ring_nf
      · simp [stageLoopFuel, hb, hnext] <;> omega

theorem stageLoopFuel_allfail (beh : Nat → Bool) (maxRetries baseDelay : Nat)
    (hf : ∀ i, beh i = false) :
    ∀ fuel retries, fuel + retries = maxRetries + 1 → retries ≤ maxRetries →
      stageLoopFuel beh maxRetries baseDelay retries fuel =
        { invocations := fuel
          retriesAdded := fuel - 1
          delays := (List.range (fuel - 1)).map (fun i => baseDelay * (retries + i + 1))
          success := false } := by
  intro fuel
  induction fuel with
  | zero => intro retries hsum hret; omega
  | succ fuel ih =>
    intro retries hsum hret
    by_cases hnext : retries + 1 ≤ maxRetries
    · have hfuel : 1 ≤ fuel := by omega
      have hrec := ih (retries + 1) (by omega) hnext
      have hstep : stageLoopFuel beh maxRetries baseDelay retries (fuel + 1) =
          { invocations := fuel + 1
            retriesAdded := (fuel - 1) + 1
            delays := baseDelay * (retries + 1) ::
              (List.range (fuel - 1)).map (fun i => baseDelay * (retries + 1 + i + 1))
            success := false } := by
        simp [stageLoopFuel, hf retries, hnext, hrec]
      rw [hstep]
      have h1 : (fuel - 1) + 1 = (fuel + 1) - 1 := by omega
      have h2 : baseDelay * (retries + 1) ::
            (List.range (fuel - 1)).map (fun i => baseDelay * (retries + 1 + i + 1)) =
          (List.range ((fuel + 1) - 1)).map (fun i => baseDelay * (retries + i + 1)) := by
        rw [Nat.add_sub_cancel]
        conv_rhs => rw [show fuel = (fuel - 1) + 1 from by omega]
        rw [List.range_succ_eq_map, List.map_cons, List.map_map]
        congr 1
        apply List.map_congr_left
        intro i _
        simp only [Function.comp_apply, Nat.succ_eq_add_one]
        ring_nf
      rw [h1, h2]
    · have h0 : fuel = 0 := by omega
      simp [stageLoopFuel, hf retries, hnext, h0]

theorem stageLoop_allfail (beh : Nat → Bool) (maxRetries baseDelay : Nat)
    (hf : ∀ i, beh i = false) :
    stageLoop beh maxRetries baseDelay =
      { invocations := maxRetries + 1
        retriesAdded := maxRetries
        delays := (List.range maxRetries).map (fun i => baseDelay * (i + 1))
        success := false } := by
  unfold stageLoop
  rw [stageLoopFuel_allfail beh maxRetries baseDelay hf (maxRetries + 1) 0 (by omega) (by omega)]
  simp

/-! ## Ledger-operation lemmas -/

theorem applyAgentUpdate_name (st : AgentState) (out : Option String) (now : Nat)
    (a : AgentStatus) : (applyAgentUpdate st out now a).name = a.name := by
  cases st <;> rfl

theorem applyAgentUpdate_status (st : AgentState) (out : Option String) (now : Nat)
    (a : AgentStatus) : (applyAgentUpdate st out now a).status = st := by
  cases st <;> rfl

theorem applyRecordUpdate_work_id (a : String) (st : AgentState) (out : Option String)
    (now : Nat) (p : ProcessingRecord) :
    (applyRecordUpdate a st out now p).work_id = p.work_id := by
  unfold applyRecordUpdate
  split <;> rfl

theorem applyRecordUpdate_pipeline (a : String) (st : AgentState) (out : Option String)
    (now : Nat) (p : ProcessingRecord) :
    (applyRecordUpdate a st out now p).agent_pipeline =
      updateFirst (fun b => b.name == a) (applyAgentUpdate st out now) p.agent_pipeline := by
  unfold applyRecordUpdate
  split <;> rfl

theorem applyRecordUpdate_names (a : String) (st : AgentState) (out : Option String)
    (now : Nat) (p : ProcessingRecord) :
    (applyRecordUpdate a st out now p).agent_pipeline.map (·.name) =
      p.agent_pipeline.map (·.name) := by
  rw [applyRecordUpdate_pipeline]
  exact updateFirst_map _ _ _ (fun x => applyAgentUpdate_name st out now x) _

theorem updateAgent_ok_elim {m : List ProcessingRecord} {w a : String}
    {st : AgentState} {out : Option String} {now : Nat} {m' : List ProcessingRecord}
    (h : updateAgent m w a st out now = .ok m') :
    ∃ p, m.find? (fun q => q.work_id == w) = some p ∧
      (∃ ag, p.agent_pipeline.find? (fun b => b.name == a) = some ag) ∧
      m' = updateFirst (fun q => q.work_id == w) (applyRecordUpdate a st out now) m := by
  unfold updateAgent at h
  split at h
  · exact absurd h (by simp)
  · rename_i p hp
    split at h
    · exact absurd h (by simp)
    · rename_i ag hag
      exact ⟨p, hp, ⟨ag, hag⟩, (Except.ok.injEq _ _ ▸ h).symm⟩

theorem updateAgent_ok_intro {m : List ProcessingRecord} {w a : String}
    (st : AgentState) (out : Option String) (now : Nat) {p : ProcessingRecord}
    {ag : AgentStatus}
    (hp : m.find? (fun q => q.work_id == w) = some p)
    (hag : p.agent_pipeline.find? (fun b => b.name == a) = some ag) :
    updateAgent m w a st out now =
      .ok (updateFirst (fun q => q.work_id == w) (applyRecordUpdate a st out now) m) := by
  simp only [updateAgent, hp, hag]

theorem updateAgent_ids {m : List ProcessingRecord} {w a : String}
    {st : AgentState} {out : Option String} {now : Nat} {m' : List ProcessingRecord}
    (h : updateAgent m w a st out now = .ok m') :
    m'.map (·.work_id) = m.map (·.work_id) := by
  obtain ⟨p, _, _, rfl⟩ := updateAgent_ok_elim h
  exact updateFirst_map _ _ _ (fun x => applyRecordUpdate_work_id a st out now x) m

/-- A `find?` under a different predicate, observed through a projection
both preserved by the update, is unchanged by `updateFirst`. -/
theorem map_find?_updateFirst {α β : Type} (p q : α → Bool) (f : α → α) (g : α → β)
    (hq : ∀ x, q (f x) = q x) (hg : ∀ x, g (f x) = g x) (l : List α) :
    ((updateFirst p f l).find? q).map g = (l.find? q).map g := by
  induction l with
  | nil => rfl
  | cons x xs ih =>
    by_cases hp : p x
    · simp only [updateFirst, hp, if_true, List.find?_cons, hq x]
      by_cases hqx : q x
      · simp [hqx, hg x]
      · simp [hqx]
    · simp only [updateFirst, hp, if_false, List.find?_cons]
      by_cases hqx : q x
      · simp [hqx]
      · simp [hqx, ih]

/-- The stage-name list the ledger shows for record `w` (`none` when the
record is absent). -/
def pipelineNames (m : List ProcessingRecord) (w : String) : Option (List String) :=
  (m.find? (fun q => q.work_id == w)).map (fun p => p.agent_pipeline.map (·.name))

theorem pipelineNames_updateAgent {m : List ProcessingRecord} {w a : String}
    {st : AgentState} {out : Option String} {now : Nat} {m' : List ProcessingRecord}
    (h : updateAgent m w a st out now = .ok m') :
    ∀ w', pipelineNames m' w' = pipelineNames m w' := by
  obtain ⟨p, hp, _, rfl⟩ := updateAgent_ok_elim h
  intro w'
  unfold pipelineNames
  exact map_find?_updateFirst _ _ _ _
    (fun x => by rw [show (applyRecordUpdate a st out now x).work_id = x.work_id from
      applyRecordUpdate_work_id a st out now x])
    (fun x => applyRecordUpdate_names a st out now x) m

theorem statusOf_updateAgent {m : List ProcessingRecord} {w a : String}
    {st : AgentState} {out : Option String} {now : Nat} {m' : List ProcessingRecord}
    (h : updateAgent m w a st out now = .ok m') :
    statusOf m' w a = some st := by
  obtain ⟨p, hp, ⟨ag, hag⟩, rfl⟩ := updateAgent_ok_elim h
  unfold statusOf
  rw [find?_updateFirst _ _ (fun x hx => by
    rw [show ((applyRecordUpdate a st out now x).work_id == w) =
      (x.work_id == w) from by rw [applyRecordUpdate_work_id]]
    exact hx) m]
  rw [hp]
  simp only [Option.map_some', Option.some_bind, applyRecordUpdate_pipeline]
  rw [find?_updateFirst _ _ (fun x hx => by
    rw [show ((applyAgentUpdate st out now x).name == a) =
      (x.name == a) from by rw [applyAgentUpdate_name]]
    exact hx) p.agent_pipeline]
  rw [hag]
  simp [applyAgentUpdate_status]

theorem incrementRetry_ok_elim {m : List ProcessingRecord} {w : String}
    {m' : List ProcessingRecord} (h : incrementRetry m w = .ok m') :
    m' = updateFirst (fun p => p.work_id == w)
      (fun p => { p with retries := p.retries + 1 }) m := by
  unfold incrementRetry at h
  split at h
  · exact absurd h (by simp)
  · exact (Except.ok.injEq _ _ ▸ h).symm

theorem incrementRetry_ids {m : List ProcessingRecord} {w : String}
    {m' : List ProcessingRecord} (h : incrementRetry m w = .ok m') :
    m'.map (·.work_id) = m.map (·.work_id) := by
  rw [incrementRetry_ok_elim h]
  exact updateFirst_map (fun p => p.work_id == w)
    (fun p => { p with retries := p.retries + 1 }) (fun x => x.work_id)
    (fun x => rfl) m

theorem pipelineNames_incrementRetry {m : List ProcessingRecord} {w : String}
    {m' : List ProcessingRecord} (h : incrementRetry m w = .ok m') :
    ∀ w', pipelineNames m' w' = pipelineNames m w' := by
  intro w'
  rw [incrementRetry_ok_elim h]
  unfold pipelineNames
  exact map_find?_updateFirst (fun p => p.work_id == w) (fun q => q.work_id == w')
    (fun p => { p with retries := p.retries + 1 })
    (fun p => p.agent_pipeline.map (·.name)) (fun x => rfl) (fun x => rfl) m

theorem incrementRetryN_ids {w : String} :
    ∀ (n : Nat) (m m' : List ProcessingRecord), incrementRetryN m w n = .ok m' →
      m'.map (·.work_id) = m.map (·.work_id) := by
  intro n
  induction n with
  | zero =>
    intro m m' h
    simp only [incrementRetryN, Except.ok.injEq] at h
    rw [h]
  | succ n ih =>
    intro m m' h
    simp only [incrementRetryN] at h
    cases hinc : incrementRetry m w with
    | error e =>
      rw [hinc] at h
      exact absurd h (by simp [Bind.bind, Except.bind])
    | ok m1 =>
      rw [hinc] at h
      simp only [Bind.bind, Except.bind] at h
      rw [ih m1 m' h, incrementRetry_ids hinc]

theorem pipelineNames_incrementRetryN {w : String} :
    ∀ (n : Nat) (m m' : List ProcessingRecord), incrementRetryN m w n = .ok m' →
      ∀ w', pipelineNames m' w' = pipelineNames m w' := by
  intro n
  induction n with
  | zero =>
    intro m m' h w'
    simp only [incrementRetryN, Except.ok.injEq] at h
    rw [h]
  | succ n ih =>
    intro m m' h w'
    simp only [incrementRetryN] at h
    cases hinc : incrementRetry m w with
    | error e =>
      rw [hinc] at h
      exact absurd h (by simp [Bind.bind, Except.bind])
    | ok m1 =>
      rw [hinc] at h
      simp only [Bind.bind, Except.bind] at h
      rw [ih m1 m' h w', pipelineNames_incrementRetry hinc w']

theorem find?_isSome_of_mem_names (l : List AgentStatus) (a : String)
    (h : a ∈ l.map (·.name)) : ∃ ag, l.find? (fun b => b.name == a) = some ag := by
  induction l with
  | nil => cases h
  | cons b bs ih =>
    by_cases hb : b.name = a
    · exact ⟨b, by simp [List.find?_cons, hb]⟩
    · have hb' : ((b.name == a) : Bool) = false := by simp [hb]
      rw [List.map_cons] at h
      rcases List.mem_cons.mp h with h' | h'
      · exact absurd h'.symm hb
      · obtain ⟨ag, hag⟩ := ih h'
        exact ⟨ag, by rw [List.find?_cons, hb']; exact hag⟩

/-- Presence of agent `a` inside record `w` in the ledger, phrased through
`pipelineNames` so it transports along the update lemmas above. -/
def agentPresent (m : List ProcessingRecord) (w a : String) : Prop :=
  ∃ names, pipelineNames m w = some names ∧ a ∈ names

theorem updateAgent_ok_of_present {m : List ProcessingRecord} {w a : String}
    (st : AgentState) (out : Option String) (now : Nat)
    (h : agentPresent m w a) :
    updateAgent m w a st out now =
      .ok (updateFirst (fun q => q.work_id == w) (applyRecordUpdate a st out now) m) := by
  obtain ⟨names, hpn, ha⟩ := h
  unfold pipelineNames at hpn
  cases hp : m.find? (fun q => q.work_id == w) with
  | none => rw [hp] at hpn; cases hpn
  | some p =>
    rw [hp] at hpn
    simp only [Option.map_some'] at hpn
    obtain ⟨ag, hag⟩ := find?_isSome_of_mem_names p.agent_pipeline a
      (by rw [Option.some.injEq] at hpn; exact hpn ▸ ha)
    exact updateAgent_ok_intro st out now hp hag

theorem agentPresent_of_pn_eq {m m' : List ProcessingRecord} {w a : String}
    (hpn : pipelineNames m' w = pipelineNames m w) (h : agentPresent m w a) :
    agentPresent m' w a := by
  obtain ⟨names, hn, ha⟩ := h
  exact ⟨names, hpn ▸ hn, ha⟩

/-! ## Executor, reset and recovery-state lemmas -/

theorem executeAgentPipeline_ids (beh : String → Nat → Bool) (maxR baseD : Nat)
    (w : String) : ∀ (agents : List String) (m : List ProcessingRecord) (now : Nat),
    (executeAgentPipeline beh maxR baseD w agents m now).manifest.map (·.work_id) =
      m.map (·.work_id) := by
  intro agents
  induction agents with
  | nil => intro m now; rfl
  | cons a rest ih =>
    intro m now
    cases h1 : updateAgent m w a .inProgress none now with
    | error e =>
      have hstep : executeAgentPipeline beh maxR baseD w (a :: rest) m now =
          { manifest := m, err := some (.notFound e), stageLogs := [] } := by
        simp only [executeAgentPipeline, h1]
      rw [hstep]
    | ok m1 =>
      cases h2 : incrementRetryN m1 w (stageLoop (beh a) maxR baseD).retriesAdded with
      | error e =>
        have hstep : executeAgentPipeline beh maxR baseD w (a :: rest) m now =
            { manifest := m1, err := some (.notFound e),
              stageLogs := [(a, stageLoop (beh a) maxR baseD)] } := by
          simp only [executeAgentPipeline, h1, h2]
        rw [hstep]
        exact updateAgent_ids h1
      | ok m2 =>
        by_cases hs : (stageLoop (beh a) maxR baseD).success = true
        · cases h3 : updateAgent m2 w a .completed (some "output") now with
          | error e =>
            have hstep : executeAgentPipeline beh maxR baseD w (a :: rest) m now =
                { manifest := m2, err := some (.notFound e),
                  stageLogs := [(a, stageLoop (beh a) maxR baseD)] } := by
              simp only [executeAgentPipeline, h1, h2]
              rw [if_pos hs]
              simp only [h3]
            rw [hstep]
            show m2.map (fun x => x.work_id) = m.map (fun x => x.work_id)
            rw [incrementRetryN_ids _ m1 m2 h2, updateAgent_ids h1]
          | ok m3 =>
            have hstep : executeAgentPipeline beh maxR baseD w (a :: rest) m now =
                { manifest := (executeAgentPipeline beh maxR baseD w rest m3 now).manifest
                  err := (executeAgentPipeline beh maxR baseD w rest m3 now).err
                  stageLogs := (a, stageLoop (beh a) maxR baseD) ::
                    (executeAgentPipeline beh maxR baseD w rest m3 now).stageLogs } := by
              simp only [executeAgentPipeline, h1, h2]
              rw [if_pos hs]
              simp only [h3]
            rw [hstep]
            show (executeAgentPipeline beh maxR baseD w rest m3 now).manifest.map
              (fun x => x.work_id) = m.map (fun x => x.work_id)
            rw [ih m3 now, updateAgent_ids h3, incrementRetryN_ids _ m1 m2 h2,
              updateAgent_ids h1]
        · cases h3 : updateAgent m2 w a .failed (some "error") now with
          | error e =>
            have hstep : executeAgentPipeline beh maxR baseD w (a :: rest) m now =
                { manifest := m2, err := some (.notFound e),
                  stageLogs := [(a, stageLoop (beh a) maxR baseD)] } := by
              simp only [executeAgentPipeline, h1, h2]
              rw [if_neg hs]
              simp only [h3]
            rw [hstep]
            show m2.map (fun x => x.work_id) = m.map (fun x => x.work_id)
            rw [incrementRetryN_ids _ m1 m2 h2, updateAgent_ids h1]
          | ok m3 =>
            have hstep : executeAgentPipeline beh maxR baseD w (a :: rest) m now =
                { manifest := m3, err := some (.agentFailed a),
                  stageLogs := [(a, stageLoop (beh a) maxR baseD)] } := by
              simp only [executeAgentPipeline, h1, h2]
              rw [if_neg hs]
              simp only [h3]
            rw [hstep]
            show m3.map (fun x => x.work_id) = m.map (fun x => x.work_id)
            rw [updateAgent_ids h3, incrementRetryN_ids _ m1 m2 h2, updateAgent_ids h1]

theorem incrementRetryN_ok_of_present {w : String} :
    ∀ (n : Nat) (m : List ProcessingRecord), (∃ p, m.find? (fun q => q.work_id == w) = some p) →
      ∃ m', incrementRetryN m w n = .ok m' := by
  intro n
  induction n with
  | zero => intro m _; exact ⟨m, rfl⟩
  | succ n ih =>
    intro m hp
    obtain ⟨p, hp⟩ := hp
    have hinc : incrementRetry m w =
        .ok (updateFirst (fun q => q.work_id == w)
          (fun q => { q with retries := q.retries + 1 }) m) := by
      unfold incrementRetry
      rw [hp]
    have hpres' : ∃ p', (updateFirst (fun q => q.work_id == w)
        (fun q => { q with retries := q.retries + 1 }) m).find?
          (fun q => q.work_id == w) = some p' := by
      rw [find?_updateFirst (fun q => q.work_id == w)
        (fun q => { q with retries := q.retries + 1 }) (fun x hx => hx) m, hp]
      exact ⟨_, rfl⟩
    obtain ⟨m', hm'⟩ := ih _ hpres'
    refine ⟨m', ?_⟩
    simp only [incrementRetryN, hinc, Bind.bind, Except.bind]
    exact hm'

theorem present_of_agentPresent {m : List ProcessingRecord} {w a : String}
    (h : agentPresent m w a) : ∃ p, m.find? (fun q => q.work_id == w) = some p := by
  obtain ⟨names, hpn, _⟩ := h
  unfold pipelineNames at hpn
  cases hp : m.find? (fun q => q.work_id == w) with
  | none => rw [hp] at hpn; cases hpn
  | some p => exact ⟨p, rfl⟩

/-- If a stage collaborator never succeeds, the executor runs exactly the
first remaining stage, marks it failed, and aborts with the
`Agent ... failed` error; the later stages are never entered. -/
theorem exec_fail_first (beh : String → Nat → Bool) (maxR baseD : Nat)
    (w a : String) (rest : List String) (m : List ProcessingRecord) (now : Nat)
    (hpres : agentPresent m w a) (hfail : ∀ i, beh a i = false) :
    (executeAgentPipeline beh maxR baseD w (a :: rest) m now).err =
      some (.agentFailed a) ∧
    (executeAgentPipeline beh maxR baseD w (a :: rest) m now).stageLogs =
      [(a, stageLoop (beh a) maxR baseD)] ∧
    statusOf (executeAgentPipeline beh maxR baseD w (a :: rest) m now).manifest w a =
      some .failed := by
  have h1 := updateAgent_ok_of_present (m := m) (w := w) (a := a) .inProgress none now hpres
  have hpres1 := agentPresent_of_pn_eq (pipelineNames_updateAgent h1 w) hpres
  obtain ⟨m2, h2⟩ := incrementRetryN_ok_of_present
    ((stageLoop (beh a) maxR baseD).retriesAdded) _ (present_of_agentPresent hpres1)
  have hpres2 := agentPresent_of_pn_eq (pipelineNames_incrementRetryN _ _ _ h2 w) hpres1
  have h3 := updateAgent_ok_of_present (m := m2) (w := w) (a := a) .failed
    (some "error") now hpres2
  have hs : (stageLoop (beh a) maxR baseD).success = false := by
    rw [stageLoop_allfail (beh a) maxR baseD hfail]
  have hrun : executeAgentPipeline beh maxR baseD w (a :: rest) m now =
      { manifest := updateFirst (fun q => q.work_id == w)
          (applyRecordUpdate a .failed (some "error") now) m2
        err := some (.agentFailed a)
        stageLogs := [(a, stageLoop (beh a) maxR baseD)] } := by
    simp only [executeAgentPipeline, h1, h2, hs, Bool.false_eq_true, if_false, h3]
  rw [hrun]
  exact ⟨rfl, rfl, statusOf_updateAgent h3⟩

theorem resetFailedAgents_ids (task : ProcessingRecord) (w : String) (now : Nat) :
    ∀ (names : List String) (m m' : List ProcessingRecord),
      resetFailedAgents task w now m names = .ok m' →
      m'.map (·.work_id) = m.map (·.work_id) := by
  intro names
  induction names with
  | nil =>
    intro m m' h
    simp only [resetFailedAgents, Except.ok.injEq] at h
    rw [h]
  | cons n rest ih =>
    intro m m' h
    simp only [resetFailedAgents] at h
    split at h
    · split at h
      · cases hup : updateAgent m w n .pending none now with
        | error e =>
          rw [hup] at h
          exact absurd h (by simp [Bind.bind, Except.bind])
        | ok m1 =>
          rw [hup] at h
          simp only [Bind.bind, Except.bind] at h
          rw [ih m1 m' h, updateAgent_ids hup]
      · exact ih m m' h
    · exact ih m m' h

theorem lookupNat_setKey (l : List (String × Nat)) (k : String) (v : Nat) :
    lookupNat (setKey l k v) k = some v := by
  unfold setKey
  by_cases h : l.any (fun kv => kv.1 == k)
  · rw [if_pos h]
    unfold lookupNat
    rw [find?_updateFirst (fun kv => kv.1 == k) (fun kv => (kv.1, v))
      (fun x hx => hx) l]
    cases hfind : l.find? (fun kv => kv.1 == k) with
    | none =>
      obtain ⟨x, hx, hpx⟩ := List.any_eq_true.mp h
      exact absurd hpx (List.find?_eq_none.mp hfind x hx)
    | some y => simp
  · rw [if_neg h]
    unfold lookupNat
    rw [List.find?_append]
    have hnone : l.find? (fun kv => kv.1 == k) = none := by
      rw [List.find?_eq_none]
      intro x hx hpx
      exact h (List.any_eq_true.mpr ⟨x, hx, hpx⟩)
    rw [hnone]
    simp [List.find?_cons]

theorem lookupNat_cleanup_active (m : List ProcessingRecord) (rs : RecoveryState)
    (w : String) (hw : w ∈ m.map (·.work_id)) :
    lookupNat (recoveryCleanup m rs).1.retries w = lookupNat rs.retries w := by
  unfold recoveryCleanup lookupNat
  dsimp only
  rw [find?_filter_of_imp (fun kv => kv.1 == w) _ rs.retries ?_]
  intro x hx
  have hx1 : x.1 = w := by simpa using hx
  rw [hx1]
  have hc : (m.map (fun p => p.work_id)).contains w = true := by
    simpa [List.contains] using List.elem_eq_true_of_mem hw
  rw [hc, Bool.true_or]

theorem resumeFromAgent_eq (task : ProcessingRecord)
    (hnd : (task.agent_pipeline.map (·.name)).Nodup) :
    (findLastCheckpoint task).resumeFromAgent =
      (task.agent_pipeline.get? (resumeIndexSpec task.agent_pipeline)).map (·.name) := by
  have hraw := rawResumeIndex_eq_spec task.agent_pipeline hnd
  cases h : (task.agent_pipeline.filter (fun a => a.status == .completed)).getLast? with
  | none =>
    have hspec : resumeIndexSpec task.agent_pipeline = 0 := by
      rw [← hraw]
      unfold rawResumeIndex
      rw [h]
    have hcp : (findLastCheckpoint task).resumeFromAgent =
        task.agent_pipeline.head?.map (·.name) := by
      simp only [findLastCheckpoint]
      rw [h]
    rw [hcp, hspec, List.get?_zero]
  | some x =>
    have hspec : resumeIndexSpec task.agent_pipeline =
        task.agent_pipeline.findIdx (fun a => a.name == x.name) + 1 := by
      rw [← hraw]
      unfold rawResumeIndex
      rw [h]
    have hcp : (findLastCheckpoint task).resumeFromAgent =
        (task.agent_pipeline.get?
          (task.agent_pipeline.findIdx (fun a => a.name == x.name) + 1)).map (·.name) := by
      simp only [findLastCheckpoint]
      rw [h]
    rw [hcp, hspec]

/-! ## Concrete fixtures for witnesses, counterexamples and evaluations -/

/-- A file reference used by the concrete scenarios. -/
def exFile (p : String) : FileRef :=
  { path := p, size_bytes := 10, hash := some "sha256:aaa", source := "unknown" }

/-- Priority-1 work item, enqueued first. -/
def exItemA : WorkItem :=
  { id := "wq-1", type := "inbox-file", priority := 1, created_at := 5,
    file := exFile "a.md", required_agents := ["normalization", "filing"] }

/-- Priority-3 work item, enqueued second. -/
def exItemB : WorkItem :=
  { id := "wq-2", type := "inbox-file", priority := 3, created_at := 6,
    file := exFile "b.md", required_agents := ["normalization", "filing"] }

/-- A queue holding `A (priority 1)` and `B (priority 3)`. -/
def exQueueAB : QueueDoc := { last_updated := none, queue := [exItemA, exItemB] }

/-- An agent-pipeline entry with only a name and a status. -/
def exAg (n : String) (st : AgentState) : AgentStatus := { name := n, status := st }

/-- Ledger record with stages `[completed, completed, failed, pending]`. -/
def exTask : ProcessingRecord :=
  { work_id := "w", file_path := "f.md", started_at := 0,
    agent_pipeline := [exAg "a" .completed, exAg "b" .completed,
      exAg "c" .failed, exAg "d" .pending],
    errors := [], retries := 0 }

/-- Ledger record with stages `[completed, failed]`. -/
def exTask2 : ProcessingRecord :=
  { work_id := "w", file_path := "f.md", started_at := 0,
    agent_pipeline := [exAg "a" .completed, exAg "b" .failed],
    errors := [], retries := 0 }

/-- A one-record ledger whose only stage is already `completed`. -/
def exM10 : List ProcessingRecord :=
  [{ work_id := "w", file_path := "f.md", started_at := 0,
     agent_pipeline := [exAg "a" .completed], errors := [], retries := 0 }]

/-- System state holding exactly the priority-1 item, empty ledgers. -/
def exState1 : SysState :=
  { queue := { last_updated := none, queue := [exItemA] }, manifest := [], completions := [] }

theorem mem_addPermanentFailure (rs : RecoveryState) (w : String) :
    w ∈ (addPermanentFailure rs w).permanentFailures := by
  unfold addPermanentFailure
  by_cases h : rs.permanentFailures.contains w
  · rw [if_pos h]
    simpa [List.contains] using List.elem_iff.mp h
  · rw [if_neg h]
    simp

theorem retries_addPermanentFailure (rs : RecoveryState) (w : String) :
    (addPermanentFailure rs w).retries = rs.retries := by
  unfold addPermanentFailure
  split <;> rfl

/-! ## Claim theorems -/

/-- C1: the claim says that when a dispatched run ends with a failed stage
the ProcessingRecord is retained in the ledger tagged failed.  The code
does the opposite: `processNext`'s catch block calls
`manifest.remove(workItem.id)`.  Evaluating the dispatcher on a queue
holding one item whose stage collaborators always fail: the run reports
`failed`, yet the final processing ledger is empty (the record was
deleted) and no completion record was written. -/
theorem c1_failure_purges_ledger :
    processNext (fun _ _ => false) 3 1000 exState1 7 =
      .ok (.failedRun,
        { queue := { last_updated := some 7, queue := [] }
          manifest := []
          completions := [] }) := by
  rfl

/-- C4 counterexample: with the default configuration (`maxRetries = 3`,
base delay 1000 ms) an always-failing stage is invoked 4 times, not at
most 3, and the waits between attempts are 1000, 2000, 3000 ms (linear
`baseDelay × n`), not the claimed exponential 1000, 2000, 4000 ms. -/
theorem c4_counterexample :
    (stageLoop (fun _ => false) 3 1000).invocations = 4 ∧
    (stageLoop (fun _ => false) 3 1000).delays = [1000, 2000, 3000] ∧
    ¬ ((stageLoop (fun _ => false) 3 1000).invocations ≤ 3) ∧
    (stageLoop (fun _ => false) 3 1000).delays ≠ [1000, 2000, 4000] := by
  decide

/-- C4 amended: for each stage, on error the executor makes at most
`maxRetries + 1` invocations of that same stage (the initial attempt plus
up to `maxRetries` retries), waiting `baseDelay × n` before the `n`-th
retry (linear backoff), and after exhausting the retries marks the stage
`failed` and aborts all remaining stages of the run (only the failing
stage appears in the run log). -/
theorem c4_local_retry (beh : String → Nat → Bool) (maxR baseD : Nat)
    (w a : String) (rest : List String) (m : List ProcessingRecord) (now : Nat)
    (hpres : agentPresent m w a) (hfail : ∀ i, beh a i = false) :
    (stageLoop (beh a) maxR baseD).invocations = maxR + 1 ∧
    (stageLoop (beh a) maxR baseD).delays =
      (List.range maxR).map (fun i => baseD * (i + 1)) ∧
    (∀ (beh' : Nat → Bool), (stageLoop beh' maxR baseD).invocations ≤ maxR + 1) ∧
    (executeAgentPipeline beh maxR baseD w (a :: rest) m now).err =
      some (.agentFailed a) ∧
    statusOf (executeAgentPipeline beh maxR baseD w (a :: rest) m now).manifest w a =
      some .failed ∧
    (executeAgentPipeline beh maxR baseD w (a :: rest) m now).stageLogs =
      [(a, stageLoop (beh a) maxR baseD)] := by
  have hall := stageLoop_allfail (beh a) maxR baseD hfail
  have hexec := exec_fail_first beh maxR baseD w a rest m now hpres hfail
  refine ⟨by rw [hall], by rw [hall], ?_, hexec.1, hexec.2.2, hexec.2.1⟩
  intro beh'
  have hspec := stageLoopFuel_spec beh' maxR baseD (maxR + 1) 0 (by omega) (by omega)
  unfold stageLoop
  omega

/-- Witness for C4's amended theorem at a concrete ledger: the stage named
`normalization` of record `wq-1` always fails, and the run aborts with the
`Agent normalization failed` error. -/
theorem c4_local_retry_witness :
    agentPresent (manifestAdd [] exItemA 0) "wq-1" "normalization" ∧
    (executeAgentPipeline (fun _ _ => false) 3 1000 "wq-1"
      ["normalization", "filing"] (manifestAdd [] exItemA 0) 9).err =
      some (.agentFailed "normalization") :=
  ⟨⟨["normalization", "filing"], rfl, by decide⟩,
    (c4_local_retry (fun _ _ => false) 3 1000 "wq-1" "normalization" ["filing"]
      (manifestAdd [] exItemA 0) 9
      ⟨["normalization", "filing"], rfl, by decide⟩ (fun _ => rfl)).2.2.2.1⟩

/-- C5: the checkpoint law.  For every record whose stage names are
distinct (as produced by `determineAgents`), the effective resume index of
`findLastCheckpoint` is one past the last completed stage in pipeline
order (or the first stage when none is completed), the resume agent is the
stage at that index, a recovery run re-invokes exactly the stages at
index ≥ the resume index, and no already-completed stage is among them. -/
theorem c5_checkpoint_law (task : ProcessingRecord)
    (hnd : (task.agent_pipeline.map (·.name)).Nodup) :
    effectiveResumeIndex (findLastCheckpoint task) = resumeIndexSpec task.agent_pipeline ∧
    (findLastCheckpoint task).resumeFromAgent =
      (task.agent_pipeline.get? (resumeIndexSpec task.agent_pipeline)).map (·.name) ∧
    remainingAgentNames task =
      (task.agent_pipeline.drop (resumeIndexSpec task.agent_pipeline)).map (·.name) ∧
    ∀ ag ∈ task.agent_pipeline.drop (resumeIndexSpec task.agent_pipeline),
      ag.status ≠ .completed := by
  have h1 := (effectiveResumeIndex_eq_raw task).trans
    (rawResumeIndex_eq_spec task.agent_pipeline hnd)
  refine ⟨h1, resumeFromAgent_eq task hnd, ?_, drop_resumeIndexSpec_not_completed _⟩
  unfold remainingAgentNames
  rw [h1]

/-- Witness for C5 at the spec's concrete pipeline
`[completed, completed, failed, pending]`: the resume index is 2 and the
re-invoked stages are `c, d`. -/
theorem c5_checkpoint_law_witness :
    (exTask.agent_pipeline.map (·.name)).Nodup ∧
    effectiveResumeIndex (findLastCheckpoint exTask) = 2 ∧
    effectiveResumeIndex (findLastCheckpoint exTask) =
      resumeIndexSpec exTask.agent_pipeline ∧
    remainingAgentNames exTask = ["c", "d"] :=
  ⟨by decide, by decide, (c5_checkpoint_law exTask (by decide)).1, by decide⟩

/-- C6: the claim says detection selects records with a failed stage or
with `retry_count ≥ maxLocalRetries`.  But `detectFailedTasks` reads the
JavaScript property `retry_count`, which `ProcessingManifest.add` never
creates — it maintains a field named `retries` — so the comparison is
`undefined >= n`, always false.  Evaluating the production path: a record
created by `add` and bumped by `incrementRetry` three times carries
`retries = 3` (and all stages pending); with `maxRetries = 3` the claim
makes it a candidate, yet detection returns the empty list. -/
theorem c6_detection_misses_retry_count :
    (incrementRetryN (manifestAdd [] exItemA 0) "wq-1" 3).toOption.map
      (fun m => (m.map (·.retries),
        m.map (fun r => r.agent_pipeline.map (·.status)),
        detectFailedTasks 3 true 86400000 m 0)) =
      some ([3], [[.pending, .pending]], []) := by
  rfl

/-- C7: for every queue whose stored order respects enqueue time (which
every sequence of `addToQueue` calls with a non-decreasing clock
produces, last conjunct), `getNext` returns an item of numerically
smallest priority, and among the items of that priority the one with the
earliest `created_at` (stable FIFO within a priority band). -/
theorem c7_dequeue_min_priority (st : QueueDoc) (w : WorkItem)
    (hmono : st.queue.Pairwise (fun x y => x.created_at ≤ y.created_at))
    (hw : getNext st = some w) :
    (w ∈ st.queue ∧
      (∀ v ∈ st.queue, w.priority ≤ v.priority) ∧
      (∀ v ∈ st.queue, v.priority = w.priority → w.created_at ≤ v.created_at)) ∧
    (∀ (env : FsEnv) (p : String) (meta : Metadata) (now : Nat) (newId : String),
      (∀ v ∈ st.queue, v.created_at ≤ now) →
      (addToQueue env st p meta now newId).2.queue.Pairwise
        (fun x y => x.created_at ≤ y.created_at)) := by
  constructor
  · rw [getNext_eq] at hw
    cases hq : st.queue with
    | nil => rw [hq] at hw; simp at hw
    | cons x xs =>
      rw [hq] at hw hmono
      have hleader : leader x xs = w := by
        simpa using hw
      subst hleader
      exact ⟨leader_mem x xs, leader_min x xs, fun v hv hp =>
        leader_earliest x xs hmono v hv hp⟩
  · intro env p meta now newId hnow
    unfold addToQueue
    by_cases h1 : st.queue.any (fun item => item.file.path == p) = true
    · rw [if_pos h1]
      exact hmono
    · rw [if_neg h1]
      by_cases h2 : (!env.fsExists p) = true
      · rw [if_pos h2]
        exact hmono
      · rw [if_neg h2]
        rw [List.pairwise_append]
        refine ⟨hmono, List.pairwise_singleton _ _, ?_⟩
        intro v hv b hb
        rw [List.mem_singleton] at hb
        subst hb
        exact hnow v hv

/-- Queue item of priority 3 created at time 4 (for the C7 witness). -/
def exItemB4 : WorkItem := { exItemB with created_at := 4 }

/-- A second priority-1 item created later than `exItemA`. -/
def exItemA6 : WorkItem := { exItemA with id := "wq-3", created_at := 6 }

/-- Queue `[priority 3 @t4, priority 1 @t5, priority 1 @t6]`. -/
def exQ7 : QueueDoc := { last_updated := none, queue := [exItemB4, exItemA, exItemA6] }

/-- Witness for C7: on `exQ7` (created_at non-decreasing) `getNext`
returns the earliest priority-1 item, which bounds every queued priority
and every equal-priority creation time. -/
theorem c7_dequeue_min_priority_witness :
    exQ7.queue.Pairwise (fun x y => x.created_at ≤ y.created_at) ∧
    getNext exQ7 = some exItemA ∧
    exQ7.queue.all (fun v => decide (exItemA.priority ≤ v.priority)) = true ∧
    exQ7.queue.all (fun v =>
      decide (v.priority = exItemA.priority → exItemA.created_at ≤ v.created_at)) =
      true := by
  have h := (c7_dequeue_min_priority exQ7 exItemA (by decide) (by decide)).1
  refine ⟨by decide, by decide, ?_, ?_⟩
  · exact List.all_eq_true.mpr (fun v hv => decide_eq_true (h.2.1 v hv))
  · exact List.all_eq_true.mpr (fun v hv => decide_eq_true (h.2.2 v hv))

/-- C8 counterexample: `getNext` (the code's dequeue) does NOT remove the
returned item.  On the spec's own scenario — queue `[A (priority 1),
B (priority 3)]` — the call returns `A` but the persisted queue still has
length 2 (not 1) and still contains `A`. -/
theorem c8_counterexample :
    (getNextRun exQueueAB).1 = some exItemA ∧
    (getNextRun exQueueAB).2.queue.length = 2 ∧
    ¬ ((getNextRun exQueueAB).2.queue.length = 1) ∧
    exItemA ∈ (getNextRun exQueueAB).2.queue := by
  decide

/-- C8 amended: dequeuing is a two-step sequence, not one atomic
operation: `getNext` returns the highest-priority item and leaves the
queue untouched; removal happens only in the separate
`startProcessing(id)` call, which (for distinct ids) removes exactly the
returned item.  The composed sequence produces the scenario's observable
results. -/
theorem c8_two_step_dequeue (st : QueueDoc) (w : WorkItem) (now : Nat)
    (hids : (st.queue.map (·.id)).Nodup) (hw : getNext st = some w) :
    getNextRun st = (some w, st) ∧
    ∃ q2, startProcessing st w.id now = .ok (w, q2) ∧
      q2.queue.length + 1 = st.queue.length ∧
      w.id ∉ q2.queue.map (·.id) := by
  have hmem : w ∈ st.queue := by
    rw [getNext_eq] at hw
    cases hq : st.queue with
    | nil => rw [hq] at hw; simp at hw
    | cons x xs =>
      rw [hq] at hw
      have hl : leader x xs = w := by simpa using hw
      rw [← hl]
      exact leader_mem x xs
  constructor
  · unfold getNextRun
    rw [hw]
  · have hfind : st.queue.find? (fun item => item.id == w.id) = some w :=
      find?_key_of_nodup (fun item => item.id) st.queue w hids hmem
    refine ⟨{ last_updated := some now,
              queue := st.queue.eraseP (fun it => it.id == w.id) }, ?_, ?_, ?_⟩
    · unfold startProcessing
      rw [hfind]
    · exact List.length_eraseP_add_one hmem (by simp)
    · exact map_eraseP_not_mem (fun item => item.id) w.id st.queue hids

/-- Witness for C8's amended theorem on the spec scenario: dispatching
from `[A (priority 1), B (priority 3)]` removes exactly `A` (leaving one
item, with `A`'s id gone); afterwards a queue holding only `B` dequeues
`B`, and an empty queue reports empty. -/
theorem c8_two_step_dequeue_witness :
    (exQueueAB.queue.map (·.id)).Nodup ∧
    (startProcessing exQueueAB exItemA.id 7).toOption.map
      (fun r => (r.1, r.2.queue.length,
        decide (exItemA.id ∈ r.2.queue.map (·.id)))) = some (exItemA, 1, false) ∧
    getNext { last_updated := some 7, queue := [exItemB] } = some exItemB ∧
    getNext { last_updated := some 8, queue := ([] : List WorkItem) } = none := by
  obtain ⟨-, q2, hsp, hlen, hnot⟩ :=
    c8_two_step_dequeue exQueueAB exItemA 7 (by decide) (by decide)
  refine ⟨by decide, ?_, by decide, rfl⟩
  rw [hsp]
  have hq2 : exQueueAB.queue.length = 2 := rfl
  have h1 : q2.queue.length = 1 := by omega
  have h2 : decide (exItemA.id ∈ q2.queue.map (·.id)) = false := decide_eq_false hnot
  show some (exItemA, q2.queue.length, decide (exItemA.id ∈ q2.queue.map (·.id))) =
    some (exItemA, 1, false)
  rw [h1, h2]

/-- C9: enqueuing a path already present in the queue is a no-op
returning the "already queued" sentinel (`null`): the queue document is
unchanged, for every environment — in particular for any content hash the
file may now have, since matching is by path only. -/
theorem c9_duplicate_path_noop (env : FsEnv) (st : QueueDoc) (filePath : String)
    (meta : Metadata) (now : Nat) (newId : String)
    (hex : st.queue.any (fun item => item.file.path == filePath) = true) :
    addToQueue env st filePath meta now newId = (none, st) := by
  unfold addToQueue
  rw [if_pos hex]

/-- Witness for C9: re-enqueuing `a.md` — present in the queue with hash
`sha256:aaa` — under an environment that now hashes it differently is
still the sentinel no-op. -/
theorem c9_duplicate_path_noop_witness :
    ((exQueueAB.queue.any (fun item => item.file.path == "a.md")) = true) ∧
    addToQueue
      { fsExists := fun _ => true, sizeOf := fun _ => 99,
        hashOf := fun _ => some "bbb" }
      exQueueAB "a.md" { source := none } 50 "wq-9" = (none, exQueueAB) :=
  ⟨by decide,
    c9_duplicate_path_noop _ exQueueAB "a.md" { source := none } 50 "wq-9" (by decide)⟩

/-- C10 counterexample: transitioning a stage that is already `completed`
back to `in-progress` is NOT rejected: on a one-record ledger whose only
stage is `completed`, `updateAgent(..., 'in-progress')` succeeds (no
`InvalidTransition` error) and the stage's status really changes. -/
theorem c10_counterexample :
    (updateAgent exM10 "w" "a" .inProgress none 5).toOption.map
      (fun m' => m'.map (fun r => r.agent_pipeline.map (·.status))) =
      some [[.inProgress]] ∧
    (updateAgent exM10 "w" "a" .inProgress none 5).toOption ≠ none ∧
    (updateAgent exM10 "w" "a" .inProgress none 5).toOption ≠ some exM10 := by
  refine ⟨rfl, by decide, by decide⟩

/-- C10 amended: `updateAgent` performs no stage-state-machine validation:
whenever the record and the named stage exist it overwrites the stage's
status with the requested one, whatever the current status; its only
errors are an unknown work id or an unknown stage name (and a thrown call
is unaccompanied by a save, leaving the ledger unchanged). -/
theorem c10_update_unvalidated (m : List ProcessingRecord) (w a : String)
    (st : AgentState) (out : Option String) (now : Nat) :
    (∀ p ag, m.find? (fun q => q.work_id == w) = some p →
      p.agent_pipeline.find? (fun b => b.name == a) = some ag →
      updateAgent m w a st out now =
        .ok (updateFirst (fun q => q.work_id == w) (applyRecordUpdate a st out now) m) ∧
      statusOf (updateFirst (fun q => q.work_id == w)
        (applyRecordUpdate a st out now) m) w a = some st) ∧
    (m.find? (fun q => q.work_id == w) = none →
      updateAgent m w a st out now =
        .error ("Processing item " ++ w ++ " not found")) ∧
    (∀ p, m.find? (fun q => q.work_id == w) = some p →
      p.agent_pipeline.find? (fun b => b.name == a) = none →
      updateAgent m w a st out now =
        .error ("Agent " ++ a ++ " not found in pipeline for " ++ w)) := by
  refine ⟨?_, ?_, ?_⟩
  · intro p ag hp hag
    have hok := updateAgent_ok_intro st out now hp hag
    exact ⟨hok, statusOf_updateAgent hok⟩
  · intro hnone
    simp only [updateAgent, hnone]
  · intro p hp hnone
    simp only [updateAgent, hp, hnone]

/-- Witness for C10's amended theorem at the counterexample ledger: the
`completed → in-progress` write goes through and is visible. -/
theorem c10_update_unvalidated_witness :
    statusOf ((updateAgent exM10 "w" "a" .inProgress none 5).toOption.getD [])
      "w" "a" = some .inProgress := by
  have h := (c10_update_unvalidated exM10 "w" "a" .inProgress none 5).1 _ _ rfl rfl
  rw [h.1]
  exact h.2

/-- C2 counterexample: a recovery retry whose remaining stage succeeds —
record `[a completed, b failed]`, all collaborators succeed — reports
`recovered`, yet the ProcessingRecord is still in the ledger, the
Completion Ledger is still empty, and the RecoveryState entries
(`retries = 1`, `lastRetry = 9`) are still present; nothing the claim
says is removed, appended or cleared actually is. -/
theorem c2_counterexample :
    (retryTask (fun _ _ => true) 3 2000 true 3 1000 exTask2 [exTask2] []
      ⟨[], [], []⟩ 9).toOption.map
      (fun o => (o.status, o.manifest.map (·.work_id), o.completions,
        lookupNat o.recovery.retries "w", lookupNat o.recovery.lastRetry "w")) =
      some (.recovered, ["w"], ([] : List CompletionRecord), some 1, some 9) := by
  rfl

/-- C2 amended: on a successful recovery retry the engine only reports
`recovered`: the ProcessingRecord stays in the ledger, nothing is appended
to the Completion Ledger, and the RecoveryState entries remain (the
`retries` counter was even just incremented and `lastRetry` stamped);
even the separate `cleanup` command keeps the `retries` entry, because the
record is still in the ledger. -/
theorem c2_success_retention (beh : String → Nat → Bool)
    (maxRetries retryDelay : Nat) (expBackoff : Bool) (pipeMaxR pipeBaseD : Nat)
    (task : ProcessingRecord) (m : List ProcessingRecord)
    (comps : List CompletionRecord) (rs : RecoveryState) (now : Nat) (ag : String)
    (m1 : List ProcessingRecord)
    (hmem : task.work_id ∈ m.map (·.work_id))
    (hguard : (lookupNat rs.retries task.work_id).getD 0 < maxRetries)
    (hres : (findLastCheckpoint task).resumeFromAgent = some ag)
    (hreset : resetFailedAgents task task.work_id now m (remainingAgentNames task) =
      .ok m1)
    (hrun : (executeAgentPipeline beh pipeMaxR pipeBaseD task.work_id
      (remainingAgentNames task) m1 now).err = none) :
    ∃ o, retryTask beh maxRetries retryDelay expBackoff pipeMaxR pipeBaseD
        task m comps rs now = .ok o ∧
      o.status = .recovered ∧
      task.work_id ∈ o.manifest.map (·.work_id) ∧
      o.completions = comps ∧
      lookupNat o.recovery.retries task.work_id =
        some ((lookupNat rs.retries task.work_id).getD 0 + 1) ∧
      lookupNat o.recovery.lastRetry task.work_id = some now ∧
      o.recovery.permanentFailures = rs.permanentFailures ∧
      lookupNat (recoveryCleanup o.manifest o.recovery).1.retries task.work_id =
        some ((lookupNat rs.retries task.work_id).getD 0 + 1) := by
  have hids : (executeAgentPipeline beh pipeMaxR pipeBaseD task.work_id
      (remainingAgentNames task) m1 now).manifest.map (·.work_id) =
      m.map (·.work_id) := by
    rw [executeAgentPipeline_ids,
      resetFailedAgents_ids task task.work_id now (remainingAgentNames task) m m1 hreset]
  have hstep : retryTask beh maxRetries retryDelay expBackoff pipeMaxR pipeBaseD
      task m comps rs now =
      .ok { status := .recovered
            manifest := (executeAgentPipeline beh pipeMaxR pipeBaseD task.work_id
              (remainingAgentNames task) m1 now).manifest
            completions := comps
            recovery := { retries := setKey rs.retries task.work_id
                            ((lookupNat rs.retries task.work_id).getD 0 + 1)
                          lastRetry := setKey rs.lastRetry task.work_id now
                          permanentFailures := rs.permanentFailures }
            delayMs := some (if expBackoff then
              retryDelay * 2 ^ ((lookupNat rs.retries task.work_id).getD 0 + 1 - 1)
              else retryDelay) } := by
    simp only [retryTask, if_neg (not_le.mpr hguard), hres, hreset,
      Bind.bind, Except.bind, hrun]
  refine ⟨_, hstep, rfl, ?_, rfl, lookupNat_setKey _ _ _, lookupNat_setKey _ _ _,
    rfl, ?_⟩
  · show task.work_id ∈ (executeAgentPipeline beh pipeMaxR pipeBaseD task.work_id
      (remainingAgentNames task) m1 now).manifest.map (·.work_id)
    rw [hids]
    exact hmem
  · rw [lookupNat_cleanup_active _ _ _ (by rw [hids]; exact hmem)]
    exact lookupNat_setKey _ _ _

/-- Witness for C2's amended theorem on the concrete scenario of the
counterexample: status `recovered`, record retained, completion ledger
empty, recovery entries present even after `cleanup`. -/
theorem c2_success_retention_witness :
    (retryTask (fun _ _ => true) 3 2000 true 3 1000 exTask2 [exTask2] []
      ⟨[], [], []⟩ 9).toOption.map
      (fun o => (o.status, decide ("w" ∈ o.manifest.map (·.work_id)), o.completions,
        lookupNat o.recovery.retries "w", lookupNat o.recovery.lastRetry "w",
        o.recovery.permanentFailures,
        lookupNat (recoveryCleanup o.manifest o.recovery).1.retries "w")) =
      some (.recovered, true, [], some 1, some 9, [], some 1) := by
  obtain ⟨o, ho, hst, hmem, hcomp, hr, hlast, hperm, hclean⟩ :=
    c2_success_retention (fun _ _ => true) 3 2000 true 3 1000 exTask2 [exTask2] []
      ⟨[], [], []⟩ 9 "b"
      ((resetFailedAgents exTask2 "w" 9 [exTask2]
        (remainingAgentNames exTask2)).toOption.getD [])
      (by decide) (by decide) rfl rfl rfl
  rw [ho]
  have hmem' : decide ("w" ∈ o.manifest.map (·.work_id)) = true := decide_eq_true hmem
  have hr' : lookupNat o.recovery.retries "w" = some 1 := hr
  have hlast' : lookupNat o.recovery.lastRetry "w" = some 9 := hlast
  have hclean' : lookupNat (recoveryCleanup o.manifest o.recovery).1.retries "w" =
      some 1 := hclean
  show some (o.status, decide ("w" ∈ o.manifest.map (·.work_id)), o.completions,
      lookupNat o.recovery.retries "w", lookupNat o.recovery.lastRetry "w",
      o.recovery.permanentFailures,
      lookupNat (recoveryCleanup o.manifest o.recovery).1.retries "w") =
    some (.recovered, true, [], some 1, some 9, [], some 1)
  rw [hst, hmem', hcomp, hr', hlast', hperm, hclean']

/-- C3 counterexample: with `maxRetries = 3` and `retries["w"] = 2`, a
pass over a still-failing item increments the counter to 3 and — in that
SAME pass, immediately after the renewed failure — quarantines the item
(`permanentFail`, id pushed to `permanentFailures`, record removed from
the ledger).  The start-of-pass threshold check had passed (2 < 3), so
the quarantine did not wait for the next pass as the claim requires. -/
theorem c3_counterexample :
    (2 : Nat) < 3 ∧
    (retryTask (fun _ _ => false) 3 2000 true 3 1000 exTask2 [exTask2] []
      ⟨[("w", 2)], [], []⟩ 9).toOption.map
      (fun o => (o.status, o.manifest, lookupNat o.recovery.retries "w",
        o.recovery.permanentFailures)) =
      some (.permanentFail, ([] : List ProcessingRecord), some 3, ["w"]) :=
  ⟨by decide, rfl⟩

/-- C3 amended: per recovery pass over a still-failing, not-yet-quarantined
item, `retries[work_id]` increases by exactly 1 and never exceeds
`maxRetries`.  Quarantine happens exactly when the counter has reached
`maxRetries` — either through the threshold check at the start of a pass,
or already in the same pass when the just-incremented counter equals
`maxRetries` and the retry fails again; quarantining records the id in
`permanentFailures` and removes the ledger record. -/
theorem c3_retry_monotonic (beh : String → Nat → Bool)
    (maxRetries retryDelay : Nat) (expBackoff : Bool) (pipeMaxR pipeBaseD : Nat)
    (task : ProcessingRecord) (m : List ProcessingRecord)
    (comps : List CompletionRecord) (rs : RecoveryState) (now : Nat) :
    (maxRetries ≤ (lookupNat rs.retries task.work_id).getD 0 →
      retryTask beh maxRetries retryDelay expBackoff pipeMaxR pipeBaseD
        task m comps rs now =
        .ok { status := .permanentFail
              manifest := manifestRemove m task.work_id
              completions := comps
              recovery := addPermanentFailure rs task.work_id
              delayMs := none }) ∧
    (∀ (ag : String) (m1 : List ProcessingRecord),
      (lookupNat rs.retries task.work_id).getD 0 < maxRetries →
      (findLastCheckpoint task).resumeFromAgent = some ag →
      resetFailedAgents task task.work_id now m (remainingAgentNames task) = .ok m1 →
      ∃ o, retryTask beh maxRetries retryDelay expBackoff pipeMaxR pipeBaseD
          task m comps rs now = .ok o ∧
        lookupNat o.recovery.retries task.work_id =
          some ((lookupNat rs.retries task.work_id).getD 0 + 1) ∧
        (lookupNat rs.retries task.work_id).getD 0 + 1 ≤ maxRetries ∧
        (o.status = .permanentFail ↔
          ((executeAgentPipeline beh pipeMaxR pipeBaseD task.work_id
              (remainingAgentNames task) m1 now).err ≠ none ∧
            maxRetries ≤ (lookupNat rs.retries task.work_id).getD 0 + 1)) ∧
        (o.status = .permanentFail →
          task.work_id ∈ o.recovery.permanentFailures ∧
          ((m.map (·.work_id)).Nodup →
            task.work_id ∉ o.manifest.map (·.work_id)))) := by
  constructor
  · intro hge
    simp only [retryTask, if_pos hge, markPermanentFailure]
  · intro ag m1 hlt hres hreset
    have hids : (executeAgentPipeline beh pipeMaxR pipeBaseD task.work_id
        (remainingAgentNames task) m1 now).manifest.map (·.work_id) =
        m.map (·.work_id) := by
      rw [executeAgentPipeline_ids,
        resetFailedAgents_ids task task.work_id now (remainingAgentNames task) m m1
          hreset]
    cases hrune : (executeAgentPipeline beh pipeMaxR pipeBaseD task.work_id
        (remainingAgentNames task) m1 now).err with
    | none =>
      have hstep : retryTask beh maxRetries retryDelay expBackoff pipeMaxR pipeBaseD
          task m comps rs now =
          .ok { status := .recovered
                manifest := (executeAgentPipeline beh pipeMaxR pipeBaseD task.work_id
                  (remainingAgentNames task) m1 now).manifest
                completions := comps
                recovery := { retries := setKey rs.retries task.work_id
                                ((lookupNat rs.retries task.work_id).getD 0 + 1)
                              lastRetry := setKey rs.lastRetry task.work_id now
                              permanentFailures := rs.permanentFailures }
                delayMs := some (if expBackoff then
                  retryDelay * 2 ^ ((lookupNat rs.retries task.work_id).getD 0 + 1 - 1)
                  else retryDelay) } := by
        simp only [retryTask, if_neg (not_le.mpr hlt), hres, hreset,
          Bind.bind, Except.bind, hrune]
      refine ⟨_, hstep, lookupNat_setKey _ _ _, by omega, ?_, ?_⟩
      · constructor
        · intro h
          exact absurd h (by simp)
        · rintro ⟨hne, _⟩
          exact absurd rfl hne
      · intro h
        exact absurd h (by simp)
    | some e =>
      by_cases hq : maxRetries ≤ (lookupNat rs.retries task.work_id).getD 0 + 1
      · have hstep : retryTask beh maxRetries retryDelay expBackoff pipeMaxR pipeBaseD
            task m comps rs now =
            .ok { status := .permanentFail
                  manifest := manifestRemove (executeAgentPipeline beh pipeMaxR
                    pipeBaseD task.work_id (remainingAgentNames task) m1 now).manifest
                    task.work_id
                  completions := comps
                  recovery := addPermanentFailure
                    { retries := setKey rs.retries task.work_id
                        ((lookupNat rs.retries task.work_id).getD 0 + 1)
                      lastRetry := setKey rs.lastRetry task.work_id now
                      permanentFailures := rs.permanentFailures } task.work_id
                  delayMs := some (if expBackoff then
                    retryDelay * 2 ^ ((lookupNat rs.retries task.work_id).getD 0 + 1 - 1)
                    else retryDelay) } := by
          simp only [retryTask, if_neg (not_le.mpr hlt), hres, hreset,
            Bind.bind, Except.bind, hrune, if_pos hq, markPermanentFailure]
        refine ⟨_, hstep, ?_, by omega, ?_, ?_⟩
        · rw [show (addPermanentFailure
              { retries := setKey rs.retries task.work_id
                  ((lookupNat rs.retries task.work_id).getD 0 + 1)
                lastRetry := setKey rs.lastRetry task.work_id now
                permanentFailures := rs.permanentFailures } task.work_id).retries =
              setKey rs.retries task.work_id
                ((lookupNat rs.retries task.work_id).getD 0 + 1) from
            retries_addPermanentFailure _ _]
          exact lookupNat_setKey _ _ _
        · exact ⟨fun _ => ⟨by simp, hq⟩, fun _ => rfl⟩
        · intro _
          refine ⟨mem_addPermanentFailure _ _, ?_⟩
          intro hnd
          have hnd' : ((executeAgentPipeline beh pipeMaxR pipeBaseD task.work_id
              (remainingAgentNames task) m1 now).manifest.map (·.work_id)).Nodup := by
            rw [hids]
            exact hnd
          show task.work_id ∉ (manifestRemove (executeAgentPipeline beh pipeMaxR
            pipeBaseD task.work_id (remainingAgentNames task) m1 now).manifest
            task.work_id).map (·.work_id)
          unfold manifestRemove
          exact map_eraseP_not_mem (fun p : ProcessingRecord => p.work_id)
            task.work_id _ hnd'
      · have hstep : retryTask beh maxRetries retryDelay expBackoff pipeMaxR pipeBaseD
            task m comps rs now =
            .ok { status := .failedRetry
                  manifest := (executeAgentPipeline beh pipeMaxR pipeBaseD
                    task.work_id (remainingAgentNames task) m1 now).manifest
                  completions := comps
                  recovery := { retries := setKey rs.retries task.work_id
                                  ((lookupNat rs.retries task.work_id).getD 0 + 1)
                                lastRetry := setKey rs.lastRetry task.work_id now
                                permanentFailures := rs.permanentFailures }
                  delayMs := some (if expBackoff then
                    retryDelay * 2 ^ ((lookupNat rs.retries task.work_id).getD 0 + 1 - 1)
                    else retryDelay) } := by
          simp only [retryTask, if_neg (not_le.mpr hlt), hres, hreset,
            Bind.bind, Except.bind, hrune, if_neg hq, markPermanentFailure]
        refine ⟨_, hstep, lookupNat_setKey _ _ _, by omega, ?_, ?_⟩
        · constructor
          · intro h
            exact absurd h (by simp)
          · rintro ⟨_, hc⟩
            exact absurd hc hq
        · intro h
          exact absurd h (by simp)

/-- Witness for C3's amended theorem on the counterexample scenario:
the counter goes from 2 to exactly 3. -/
theorem c3_retry_monotonic_witness :
    (retryTask (fun _ _ => false) 3 2000 true 3 1000 exTask2 [exTask2] []
      ⟨[("w", 2)], [], []⟩ 9).toOption.map
      (fun o => lookupNat o.recovery.retries "w") = some (some 3) := by
  obtain ⟨o, ho, hr, _⟩ := (c3_retry_monotonic (fun _ _ => false) 3 2000 true 3 1000
    exTask2 [exTask2] [] ⟨[("w", 2)], [], []⟩ 9).2 "b"
    ((resetFailedAgents exTask2 "w" 9 [exTask2]
      (remainingAgentNames exTask2)).toOption.getD [])
    (by decide) rfl rfl
  have hr' : lookupNat o.recovery.retries "w" = some 3 := hr
  rw [ho]
  show some (lookupNat o.recovery.retries "w") = some (some 3)
  rw [hr']

end Brain

